import Mathlib

/-!
Shallow embedding of the civtest rules engine (src/map.py, src/unit.py,
src/player.py, src/game.py, src/city.py, src/movement.py, src/config.py,
src/unit_config/__init__.py) together with proofs of the spec claims.

Conventions used throughout the embedding:
* Python `int` is modelled as `Int` (or `Nat` for values that are used only
  as sizes or identifiers).
* Python object identity is modelled through the unique identifiers the code
  itself uses for addressing (`Unit.unique_id`, `City.city_id`); the theorems
  carry explicit uniqueness hypotheses where this matters.
* In-place mutation of an object that is shared through `game.units` or
  `game.players` is modelled by an id-addressed functional update of the
  containing list.
* `while` loops are modelled by fuel-indexed recursion where the fuel is an
  exact bound on the number of iterations of the source loop, so the
  embedded function computes the same result the loop does.
-/

/-- Terrain kinds, from `config.TERRAIN_TYPES` (map.py stores them as
strings). -/
inductive Terrain where
  | grassland
  | plains
  | forest
  | hill
  | mountain
  | water
deriving DecidableEq, Repr

/-- A tile claim, the pair stored by the spec-modelled `Tile.claim`
operation (owning city id, owning player id). -/
structure TileClaim where
  city_id : String
  owner_id : String
deriving DecidableEq, Repr

/-- `map.py` class `Tile` (lines 23-53): position, terrain, optional city
back-reference and optional occupying unit.  The occupying unit is stored as
the occupant's `unique_id` (a non-owning back-reference).  The `claim` field
holds the claim state used by the spec-modelled `Tile.claim`/`Tile.release`
operations that `city.py` calls; `tile.city_id` in city.py reads its city
component. -/
structure Tile where
  x : Int
  y : Int
  terrain : Terrain
  claim : Option TileClaim
  unit : Option Nat
deriving DecidableEq, Repr

/-- Modelled from the spec: `Tile.claim(city_id, owner_id)` is called by
`City.claim_center_tile` and `City.expand_worked_tiles` (city.py) but the
method is absent from src/map.py.  Per spec section 4.2, claiming a tile that
is already claimed by another city must fail with the signal
"already claimed" and leave the claim unchanged; otherwise the claim is
recorded. -/
def Tile.claimTile (t : Tile) (cid oid : String) : Tile × Except String Unit :=
  match t.claim with
  | some c =>
      if c.city_id ≠ cid then (t, Except.error ("already claimed"))
      else ({ t with claim := some ⟨cid, oid⟩ }, Except.ok ())
  | none => ({ t with claim := some ⟨cid, oid⟩ }, Except.ok ())

/-- Modelled from the spec: `Tile.release` is called by
`City.contract_worked_tiles` and `City.release_all_worked_tiles` (city.py)
but the method is absent from src/map.py.  Per spec section 4.2 the release
operation validates that the caller's city id matches the current claim
before releasing; on a mismatch the claim is left unchanged. -/
def Tile.releaseBy (t : Tile) (callerCid : String) : Tile :=
  match t.claim with
  | some c => if c.city_id = callerCid then { t with claim := none } else t
  | none => t

/-- `map.py` class `GameMap` (grid part only; generation and rendering are
out of scope for the claims).  `tiles` is the row-major grid
`self.tiles[y][x]`. -/
structure GameMap where
  width : Nat
  height : Nat
  tiles : List (List Tile)
deriving DecidableEq, Repr

/-- `GameMap.get_tile` (map.py lines 176-180): the tile at `(x, y)` or
`None` when out of bounds. -/
def GameMap.get_tile (m : GameMap) (x y : Int) : Option Tile :=
  if 0 ≤ x ∧ x < (m.width : Int) ∧ 0 ≤ y ∧ y < (m.height : Int) then
    (m.tiles.get? y.toNat).bind (fun row => row.get? x.toNat)
  else
    none

/-- `GameMap.is_tile_passable` (map.py lines 183-188): out of bounds is
impassable, otherwise only water is impassable. -/
def GameMap.is_tile_passable (m : GameMap) (x y : Int) : Bool :=
  match m.get_tile x y with
  | none => false
  | some tile => tile.terrain ≠ Terrain.water

/-- Functional rendering of an in-place update of the tile object at
`(x, y)` inside the grid. -/
def GameMap.modifyTile (m : GameMap) (x y : Int) (f : Tile → Tile) : GameMap :=
  { m with
    tiles := m.tiles.map (fun row =>
      row.map (fun t => if t.x = x ∧ t.y = y then f t else t)) }

/-- The concrete unit classes of unit.py: `Warrior` (a `MeleeUnit`, hence a
`CombatUnit`) and `Settler` (a `NonCombatUnit`).  These are the only values
`Unit.from_dict` can produce. -/
inductive UKind where
  | warrior
  | settler
deriving DecidableEq, Repr

/-- `unit_config.UNIT_TYPES[...]["move_points"]`. -/
def unitTypeMovePoints : UKind → Int
  | UKind.warrior => 4
  | UKind.settler => 2

/-- `unit_config.UNIT_TYPES[...]["hp"]`. -/
def unitTypeHp : UKind → Int
  | UKind.warrior => 100
  | UKind.settler => 100

/-- `unit_config.UNIT_TYPES[...]["attack"]`. -/
def unitTypeAttack : UKind → Int
  | UKind.warrior => 25
  | UKind.settler => 0

/-- unit.py unit state.  The class hierarchy
(`Unit` / `CombatUnit` / `MeleeUnit` / `NonCombatUnit`) is flattened into one
record tagged by `kind`; operations dispatch on the tag exactly where the
source dispatches dynamically.  The fields `attack` and `attackedThisTurn`
exist only on `CombatUnit` instances in the source; on settlers they are
phantom fields that no settler code path ever reads or writes (a settler
record keeps them at `0` / `false`). -/
structure GUnit where
  unique_id : Nat
  owner : String
  kind : UKind
  x : Int
  y : Int
  moves : Int
  selected : Bool
  hp : Int
  attack : Int
  attackedThisTurn : Bool
deriving DecidableEq, Repr

/-- `Warrior.__init__` with all optional stats left at their defaults. -/
def mkWarrior (uid : Nat) (owner : String) (x y : Int) : GUnit :=
  { unique_id := uid, owner := owner, kind := UKind.warrior, x := x, y := y
    moves := unitTypeMovePoints UKind.warrior, selected := false
    hp := unitTypeHp UKind.warrior, attack := unitTypeAttack UKind.warrior
    attackedThisTurn := false }

/-- `Settler.__init__` with all optional stats left at their defaults. -/
def mkSettler (uid : Nat) (owner : String) (x y : Int) : GUnit :=
  { unique_id := uid, owner := owner, kind := UKind.settler, x := x, y := y
    moves := unitTypeMovePoints UKind.settler, selected := false
    hp := unitTypeHp UKind.settler, attack := 0
    attackedThisTurn := false }

/-- `Unit.can_move` (unit.py lines 77-86): at least one movement point,
target cardinally adjacent, and target passable on the map.  (The source
also accepts `game_map=None`, which skips the passability check; the claims
always supply a map, so the embedding takes the map unconditionally.) -/
def GUnit.can_move (u : GUnit) (tx ty : Int) (gm : GameMap) : Bool :=
  if u.moves < 1 then false
  else if (tx - u.x).natAbs + (ty - u.y).natAbs ≠ 1 then false
  else if ¬ gm.is_tile_passable tx ty then false
  else true

/-- `Unit.move` (unit.py lines 55-61): on success the unit is placed on the
target tile and one movement point is consumed. -/
def GUnit.move (u : GUnit) (tx ty : Int) (gm : GameMap) : GUnit × Bool :=
  if u.can_move tx ty gm then
    ({ u with x := tx, y := ty, moves := u.moves - 1 }, true)
  else
    (u, false)

/-- The loop body of `Unit.move_along_path` over `path[1:]`: steps are taken
with `self.move` until a step fails `can_move`; returns the unit and the
number of steps actually moved. -/
def GUnit.moveAlongPathGo (gm : GameMap) : GUnit → List (Int × Int) → GUnit × Nat
  | u, [] => (u, 0)
  | u, s :: rest =>
      if u.can_move s.1 s.2 gm then
        let u' := (u.move s.1 s.2 gm).1
        let r := GUnit.moveAlongPathGo gm u' rest
        (r.1, r.2 + 1)
      else
        (u, 0)

/-- `Unit.move_along_path` (unit.py lines 63-75). -/
def GUnit.move_along_path (u : GUnit) (path : List (Int × Int)) (gm : GameMap) :
    GUnit × Nat :=
  GUnit.moveAlongPathGo gm u (path.drop 1)

/-- `Unit.reset_moves` (unit.py lines 88-91): movement points return to the
kind's configured maximum; the attacked-this-round flag is cleared when the
attribute exists (combat units only — `hasattr` is false on settlers). -/
def GUnit.reset_moves (u : GUnit) : GUnit :=
  { u with
    moves := unitTypeMovePoints u.kind
    attackedThisTurn :=
      match u.kind with
      | UKind.warrior => false
      | UKind.settler => u.attackedThisTurn }

/-- `CombatUnit.can_attack` (unit.py lines 130-137): different owners, at
least one movement point, not yet attacked this round. -/
def GUnit.canAttackBase (self target : GUnit) : Bool :=
  if self.owner = target.owner then false
  else if self.moves < 1 then false
  else if self.attackedThisTurn then false
  else true

/-- `MeleeUnit.can_attack` (unit.py lines 204-212): the base combat check
plus cardinal adjacency. -/
def GUnit.canAttackMelee (self target : GUnit) : Bool :=
  if ¬ self.canAttackBase target then false
  else if (self.x - target.x).natAbs + (self.y - target.y).natAbs ≠ 1 then false
  else true

/-- player.py class `Player` (lines 19-25): id, human flag, rosters of owned
unit ids and city ids, resource counters and an optional color.  Note the
rosters are `unit_ids` / `city_ids`; the class has no attribute named
`units`. -/
structure Player where
  player_id : String
  is_human : Bool
  unit_ids : List Nat
  city_ids : List Nat
  resources : List (String × Int)
  color : Option (Int × Int × Int)
deriving DecidableEq, Repr

/-- `Player.__init__` defaults. -/
def mkPlayer (pid : String) (isHuman : Bool) (color : Option (Int × Int × Int)) : Player :=
  { player_id := pid, is_human := isHuman, unit_ids := [], city_ids := []
    resources := [("food", 0), ("prod", 0), ("gold", 0)], color := color }

/-- game.py class `Game`.  `players` and `turn_finished` are insertion-ordered
string-keyed dictionaries, modelled as association lists.  (`cities` and the
unit-id counter play no role in the claims below and are omitted.) -/
structure Game where
  map : GameMap
  units : List GUnit
  players : List (String × Player)
  current_player : Option String
  turn : Int
  turn_finished : List (String × Bool)
deriving DecidableEq, Repr

/-- `Game.__init__` (game.py lines 20-41): `turn_finished` starts false for
every player, and `current_player` is kept when it names an existing player,
otherwise it falls back to the first player key (or `None` when there are no
players). -/
def mkGame (gm : GameMap) (units : List GUnit) (players : List (String × Player))
    (current : Option String) (turn : Int) : Game :=
  { map := gm, units := units, players := players, turn := turn
    turn_finished := players.map (fun p => (p.1, false))
    current_player :=
      if players = [] then none
      else
        match current with
        | some c => if (players.map Prod.fst).contains c then some c
                    else (players.map Prod.fst).head?
        | none => (players.map Prod.fst).head? }

/-- Replace, in a unit list, the record whose `unique_id` matches `uid`.
This is the functional rendering of in-place mutation of a unit object that
the list references. -/
def replaceUnit (units : List GUnit) (uid : Nat) (u' : GUnit) : List GUnit :=
  units.map (fun u => if u.unique_id = uid then u' else u)

/-- `CombatUnit.take_damage` (unit.py lines 150-163).  Hit points drop by
`amount`; at 0 or below the unit is removed from `game.units` and cleared
from its tile's back-reference.  The roster removal in the source is guarded
by `hasattr(player, "units")`, which is false for every `player.Player`
instance (the class stores rosters in `unit_ids`), so the players are
returned unchanged. -/
def combatTakeDamage (self : GUnit) (amount : Int) (g : Game) (gm : GameMap) :
    GUnit × Game × GameMap :=
  let self' := { self with hp := self.hp - amount }
  let unitsSeen := replaceUnit g.units self.unique_id self'
  if self'.hp ≤ 0 then
    let units' := unitsSeen.filter (fun u => u.unique_id ≠ self.unique_id)
    let gm' := gm.modifyTile self.x self.y (fun t =>
      if t.unit = some self.unique_id then { t with unit := none } else t)
    (self', { g with units := units' }, gm')
  else
    (self', { g with units := unitsSeen }, gm)

/-- `NonCombatUnit.take_damage` (unit.py lines 225-253).  Hit points drop by
`amount`; at 0 or below, when the attacker is a combat unit, the unit is
captured: ownership transfers to the attacker's owner, hit points reset to
the kind's maximum, the unit is kept in `game.units` (appended only if
somehow missing) and placed on its current tile.  The roster transfer in the
source is guarded by `hasattr(player, "units")`, which is false for every
`player.Player` instance (the class stores rosters in `unit_ids`), so the
players are returned unchanged. -/
def nonCombatTakeDamage (self : GUnit) (amount : Int) (g : Game) (gm : GameMap)
    (attacker : GUnit) : GUnit × Game × GameMap :=
  let self' := { self with hp := self.hp - amount }
  let unitsSeen := replaceUnit g.units self.unique_id self'
  if self'.hp ≤ 0 ∧ attacker.kind = UKind.warrior then
    let self'' := { self' with owner := attacker.owner, hp := unitTypeHp self.kind }
    let units1 := replaceUnit unitsSeen self.unique_id self''
    let units2 :=
      if units1.any (fun u => u.unique_id = self.unique_id) then units1
      else units1 ++ [self'']
    let gm' := gm.modifyTile self.x self.y (fun t => { t with unit := some self.unique_id })
    (self'', { g with units := units2 }, gm')
  else
    (self', { g with units := unitsSeen }, gm)

/-- `Unit.take_damage` dynamic dispatch: warriors use
`CombatUnit.take_damage`, settlers use `NonCombatUnit.take_damage`. -/
def takeDamage (self : GUnit) (amount : Int) (g : Game) (gm : GameMap)
    (attacker : GUnit) : GUnit × Game × GameMap :=
  match self.kind with
  | UKind.warrior => combatTakeDamage self amount g gm
  | UKind.settler => nonCombatTakeDamage self amount g gm attacker

/-- `MeleeUnit.attack_unit` (unit.py lines 214-220) composed with the
inherited `CombatUnit.attack_unit` (lines 139-148): the melee override
rejects non-adjacent targets, the base operation re-checks `can_attack`
(dispatching to the melee version), applies `take_damage` with the
attacker's attack value, then zeroes the attacker's movement points and sets
its attacked-this-round flag.  Returns the updated game, map and the success
flag. -/
def meleeAttackUnit (self target : GUnit) (g : Game) (gm : GameMap) :
    Game × GameMap × Bool :=
  if (self.x - target.x).natAbs + (self.y - target.y).natAbs ≠ 1 then (g, gm, false)
  else if ¬ self.canAttackMelee target then (g, gm, false)
  else
    let r := takeDamage target self.attack g gm self
    let self' := { self with moves := 0, attackedThisTurn := true }
    let g' := { r.2.1 with units := replaceUnit r.2.1.units self.unique_id self' }
    (g', r.2.2, true)

/-- Mark a key's entry in an association list (dictionary update). -/
def setAssoc (l : List (String × Bool)) (k : String) (v : Bool) : List (String × Bool) :=
  l.map (fun p => if p.1 = k then (p.1, v) else p)

/-- `Game.next_round` (game.py lines 147-159): the round counter increments,
every unit's movement points reset, every finished flag clears, and the
current player returns to the first player key. -/
def Game.next_round (g : Game) : Game :=
  { g with
    turn := g.turn + 1
    units := g.units.map GUnit.reset_moves
    turn_finished := g.players.map (fun p => (p.1, false))
    current_player :=
      if g.players = [] then g.current_player
      else (g.players.map Prod.fst).head? }

/-- The forward search of game.py lines 136-144: starting after the current
player's index, the first player whose finished flag is still false becomes
current.  `ids` is the fixed player-id ordering. -/
def nextUnfinished (ids : List String) (finished : List (String × Bool)) (idx : Nat) :
    Option String :=
  ((List.range (ids.length - 1)).map
      (fun off => ids.getD ((idx + 1 + off) % ids.length) (""))).find?
    (fun pid => (finished.find? (fun p => p.1 = pid)).map Prod.snd = some false)

/-- `Game.end_turn_for_current_player` (game.py lines 122-145): mark the
current player finished; if everyone is finished advance the round and
report `true`, otherwise rotate to the next unfinished player and report
`false`.  (The source indexes `player_ids.index(current)`, which raises if
the current player is unknown; the claims only use games whose current
player is a key of `players`, where the embedding agrees with the source.) -/
def Game.end_turn_for_current_player (g : Game) : Game × Bool :=
  let finished :=
    match g.current_player with
    | some c =>
        if (g.turn_finished.map Prod.fst).contains c then setAssoc g.turn_finished c true
        else g.turn_finished
    | none => g.turn_finished
  let g1 := { g with turn_finished := finished }
  if finished.all (fun p => p.2) then (g1.next_round, true)
  else
    if (finished.filter (fun p => ¬ p.2)).length > 0 then
      let ids := g1.players.map Prod.fst
      let idx := ids.indexOf (g1.current_player.getD (""))
      match nextUnfinished ids finished idx with
      | some pid => ({ g1 with current_player := some pid }, false)
      | none => (g1, false)
    else (g1, false)

/-- The dictionary produced by `Unit.to_dict` (unit.py lines 96-106 plus the
`CombatUnit`/`NonCombatUnit` overrides).  Fields read back through
`data.get(...)` in the `from_dict` constructors are `Option`s; `attack` is
emitted only by combat units. -/
structure UnitDict where
  unique_id : Nat
  owner : String
  unit_type : UKind
  x : Int
  y : Int
  moves : Option Int
  selected : Option Bool
  className : String
  hp : Option Int
  attack : Option Int
deriving DecidableEq, Repr

/-- `Unit.to_dict` with the `CombatUnit.to_dict` / `NonCombatUnit.to_dict`
overrides. -/
def GUnit.to_dict (u : GUnit) : UnitDict :=
  { unique_id := u.unique_id, owner := u.owner, unit_type := u.kind
    x := u.x, y := u.y, moves := some u.moves, selected := some u.selected
    className := match u.kind with
      | UKind.warrior => "Warrior"
      | UKind.settler => "Settler"
    hp := some u.hp
    attack := match u.kind with
      | UKind.warrior => some u.attack
      | UKind.settler => none }

/-- `Unit.from_dict` (unit.py lines 108-116) dispatching to
`Warrior.from_dict` / `Settler.from_dict`, whose constructors substitute the
kind's configured defaults for absent optional stats. -/
def unitFromDict (d : UnitDict) : GUnit :=
  match d.unit_type with
  | UKind.warrior =>
      { unique_id := d.unique_id, owner := d.owner, kind := UKind.warrior
        x := d.x, y := d.y
        moves := d.moves.getD (unitTypeMovePoints UKind.warrior)
        selected := d.selected.getD false
        hp := d.hp.getD (unitTypeHp UKind.warrior)
        attack := d.attack.getD (unitTypeAttack UKind.warrior)
        attackedThisTurn := false }
  | UKind.settler =>
      { unique_id := d.unique_id, owner := d.owner, kind := UKind.settler
        x := d.x, y := d.y
        moves := d.moves.getD (unitTypeMovePoints UKind.settler)
        selected := d.selected.getD false
        hp := d.hp.getD (unitTypeHp UKind.settler)
        attack := 0
        attackedThisTurn := false }

/-- The dictionary produced by `Player.to_dict` (player.py lines 27-35). -/
structure PlayerDict where
  player_id : String
  is_human : Option Bool
  unit_ids : Option (List Nat)
  city_ids : Option (List Nat)
  resources : Option (List (String × Int))
  color : Option (Int × Int × Int)
deriving DecidableEq, Repr

/-- `Player.to_dict`. -/
def Player.to_dict (p : Player) : PlayerDict :=
  { player_id := p.player_id, is_human := some p.is_human
    unit_ids := some p.unit_ids, city_ids := some p.city_ids
    resources := some p.resources, color := p.color }

/-- `Player.from_dict` (player.py lines 37-47). -/
def playerFromDict (d : PlayerDict) : Player :=
  { player_id := d.player_id
    is_human := d.is_human.getD true
    unit_ids := d.unit_ids.getD []
    city_ids := d.city_ids.getD []
    resources := d.resources.getD [("food", 0), ("prod", 0), ("gold", 0)]
    color := d.color }

/-- Modelled from the spec: `GameMap.to_dict`/`GameMap.from_dict` are called
by `Game.to_dict`/`Game.from_dict` (game.py lines 72-95) but are absent from
src/map.py.  Per spec section 6 the snapshot stores the map dimensions and
every tile's terrain, and round-tripping reproduces identical tile
terrain. -/
structure MapDict where
  width : Nat
  height : Nat
  terrain : List (List Terrain)
deriving DecidableEq, Repr

/-- Modelled from the spec: serialization half of the missing
`GameMap.to_dict`. -/
def GameMap.to_dict (m : GameMap) : MapDict :=
  { width := m.width, height := m.height
    terrain := m.tiles.map (fun row => row.map Tile.terrain) }

/-- Modelled from the spec: deserialization half of the missing
`GameMap.from_dict`; claim and occupant state are not part of the snapshot
and come back empty. -/
def mapFromDict (d : MapDict) : GameMap :=
  { width := d.width, height := d.height
    tiles := d.terrain.mapIdx (fun y row =>
      row.mapIdx (fun x t =>
        { x := (x : Int), y := (y : Int), terrain := t, claim := none, unit := none })) }

/-- The dictionary produced by `Game.to_dict` (game.py lines 72-82); note
cities are commented out of the snapshot in the source. -/
structure GameDict where
  map : MapDict
  units : List UnitDict
  players : List (String × PlayerDict)
  current_player : Option String
  turn : Int
deriving DecidableEq, Repr

/-- `Game.to_dict`. -/
def Game.to_dict (g : Game) : GameDict :=
  { map := g.map.to_dict
    units := g.units.map GUnit.to_dict
    players := g.players.map (fun p => (p.1, p.2.to_dict))
    current_player := g.current_player
    turn := g.turn }

/-- `Game.from_dict` (game.py lines 84-95): the pieces are deserialized and
handed to the `Game` constructor. -/
def gameFromDict (d : GameDict) : Game :=
  mkGame (mapFromDict d.map) (d.units.map unitFromDict)
    (d.players.map (fun p => (p.1, playerFromDict p.2))) d.current_player d.turn

/-- `config.MAP_WIDTH`. -/
def MAP_WIDTH : Int := 20

/-- `config.MAP_HEIGHT`. -/
def MAP_HEIGHT : Int := 20

/-- State of the BFS loop of `movement.compute_reachable` (movement.py lines
31-61).  `queue` is the FIFO deque of `(coordinate, path, dist)` triples;
`visited` is the enqueued set; `valid_moves` and `path_map` are the outputs.
`dist_map` is instrumentation recording, for every tile added to the
reachable set, the BFS step distance `dist` the algorithm associated with
it; it is dropped by `compute_reachable` itself. -/
structure BfsState where
  visited : List (Int × Int)
  queue : List ((Int × Int) × List (Int × Int) × Nat)
  valid_moves : List (Int × Int)
  path_map : List ((Int × Int) × List (Int × Int))
  dist_map : List ((Int × Int) × Nat)
deriving DecidableEq, Repr

/-- The neighbor scan of one dequeued node: directions in source order
west, east, north, south; a neighbor is enqueued (and marked visited) when
it lies inside the configured `MAP_WIDTH × MAP_HEIGHT` bounds, its tile's
terrain is not water, and it has not been visited.  (When `get_tile`
returns `None` inside the bounds the source would fault reading
`tile.terrain`; that situation cannot arise for the full-size maps the game
builds, and the embedding skips such a neighbor.) -/
def bfsExpandStep (g : Game) (c : Int × Int) (path : List (Int × Int)) (dist : Nat)
    (st : BfsState) (d : Int × Int) : BfsState :=
  let n : Int × Int := (c.1 + d.1, c.2 + d.2)
  if 0 ≤ n.1 ∧ n.1 < MAP_WIDTH ∧ 0 ≤ n.2 ∧ n.2 < MAP_HEIGHT then
    match g.map.get_tile n.1 n.2 with
    | some tile =>
        if tile.terrain ≠ Terrain.water ∧ ¬ st.visited.contains n then
          { st with
            visited := st.visited ++ [n]
            queue := st.queue ++ [(n, path ++ [n], dist + 1)] }
        else st
    | none => st
  else st

/-- The full neighbor scan: the four directions in source order. -/
def bfsExpand (g : Game) (c : Int × Int) (path : List (Int × Int)) (dist : Nat)
    (st : BfsState) : BfsState :=
  [((-1 : Int), (0 : Int)), (1, 0), (0, -1), (0, 1)].foldl
    (bfsExpandStep g c path dist) st

/-- One iteration of the BFS `while queue:` loop: dequeue, record the tile
in the reachable set when `dist > 0` and no other unit occupies it, then
expand neighbors unless the movement budget is exhausted. -/
def bfsVisit (g : Game) (u : GUnit) (c : Int × Int) (path : List (Int × Int))
    (dist : Nat) (st : BfsState) : BfsState :=
  let st1 :=
    if 0 < dist then
      if ¬ g.units.any (fun v => v.x = c.1 ∧ v.y = c.2 ∧ v ≠ u) then
        { st with
          valid_moves := st.valid_moves ++ [c]
          path_map := st.path_map ++ [(c, path)]
          dist_map := st.dist_map ++ [(c, dist)] }
      else st
    else st
  if (dist : Int) ≥ u.moves then st1 else bfsExpand g c path dist st1

/-- The fuel-indexed BFS loop.  Every iteration removes one queue entry, and
every enqueued coordinate is simultaneously added to `visited`, so the total
number of iterations is bounded by `1 + MAP_WIDTH * MAP_HEIGHT`; running
with that much fuel computes the full loop. -/
def bfsLoop (g : Game) (u : GUnit) : Nat → BfsState → BfsState
  | 0, st => st
  | fuel + 1, st =>
      match st.queue with
      | [] => st
      | (c, path, dist) :: rest =>
          bfsLoop g u fuel (bfsVisit g u c path dist { st with queue := rest })

/-- `compute_reachable` with its full internal state exposed. -/
def computeReachableAux (g : Game) (u : GUnit) : BfsState :=
  bfsLoop g u (1 + (MAP_WIDTH * MAP_HEIGHT).toNat)
    { visited := [(u.x, u.y)]
      queue := [((u.x, u.y), [(u.x, u.y)], 0)]
      valid_moves := [], path_map := [], dist_map := [] }

/-- `movement.compute_reachable` (movement.py lines 31-61): the reachable
tile list and the map from each reachable tile to its path. -/
def compute_reachable (g : Game) (u : GUnit) :
    List (Int × Int) × List ((Int × Int) × List (Int × Int)) :=
  let st := computeReachableAux g u
  (st.valid_moves, st.path_map)

/-- city.py class `City`: id, owner, founding position, population and the
ordered list of worked tiles. -/
structure City where
  city_id : String
  owner_id : String
  name : String
  x : Int
  y : Int
  population : Int
  worked_tiles : List (Int × Int)
deriving DecidableEq, Repr

/-- `City.__init__` with `worked_tiles` left at its default: a fresh city
works exactly its center. -/
def mkCity (cid oid nm : String) (x y : Int) (pop : Int) : City :=
  { city_id := cid, owner_id := oid, name := nm, x := x, y := y
    population := pop, worked_tiles := [(x, y)] }

/-- `City.is_adjacent_to_worked` (city.py lines 84-88): true when `(tx, ty)`
is 8-directionally adjacent to (and distinct from) some worked tile. -/
def City.is_adjacent_to_worked (c : City) (tx ty : Int) : Bool :=
  c.worked_tiles.any (fun w =>
    (w.1 - tx).natAbs ≤ 1 ∧ (w.2 - ty).natAbs ≤ 1 ∧ (w.1 ≠ tx ∨ w.2 ≠ ty))

/-- The inclusive integer range `[lo, hi]`, the `range(lo, hi+1)` of the
candidate scan. -/
def intRangeIncl (lo hi : Int) : List Int :=
  (List.range (hi + 1 - lo).toNat).map (fun k => lo + k)

/-- `City.get_potential_worked_tiles` (city.py lines 61-82): tiles within
Chebyshev `radius` of the center, scanned with `dx` outer and `dy` inner,
that are not already worked by this city, exist on the map, are not water or
mountain, are not worked by any other city, and are adjacent to a worked
tile.  `all_cities` entries other than `self` are recognized by `city_id`
(the source compares object identity; city ids are unique uuids). -/
def City.get_potential_worked_tiles (self : City) (gm : GameMap)
    (allCities : List City) (radius : Int) : List (Int × Int) :=
  (intRangeIncl (-radius) radius).flatMap (fun dx =>
    (intRangeIncl (-radius) radius).filterMap (fun dy =>
      let tx := self.x + dx
      let ty := self.y + dy
      if (tx, ty) ∈ self.worked_tiles then none
      else
        match gm.get_tile tx ty with
        | none => none
        | some tile =>
            if tile.terrain = Terrain.water ∨ tile.terrain = Terrain.mountain then none
            else if allCities.any (fun c =>
                c.city_id ≠ self.city_id ∧ (tx, ty) ∈ c.worked_tiles) then none
            else if self.is_adjacent_to_worked tx ty then some (tx, ty)
            else none))

/-- The Manhattan-distance sort key of `City.expand_worked_tiles`. -/
def City.manhattanToCenter (self : City) (t : Int × Int) : Nat :=
  (t.1 - self.x).natAbs + (t.2 - self.y).natAbs

/-- The `while len(worked) < population` loop of `City.expand_worked_tiles`
(city.py lines 90-103): compute candidates, stop when none remain, otherwise
claim the stably-sorted nearest candidate and append it to the worked list.
Each iteration appends one tile, so `population - len(worked)` iterations of
fuel reproduce the loop exactly. -/
def expandLoop (gm : GameMap) (allCities : List City) (radius : Int) :
    Nat → City → City × GameMap
  | 0, self => (self, gm)
  | fuel + 1, self =>
      if (self.worked_tiles.length : Int) < self.population then
        let cands := self.get_potential_worked_tiles gm allCities radius
        match (cands.mergeSort (fun a b =>
            decide (self.manhattanToCenter a ≤ self.manhattanToCenter b))).head? with
        | none => (self, gm)
        | some chosen =>
            let self' := { self with worked_tiles := self.worked_tiles ++ [chosen] }
            let gm' := gm.modifyTile chosen.1 chosen.2
              (fun t => (t.claimTile self.city_id self.owner_id).1)
            expandLoop gm' allCities radius fuel self'
      else (self, gm)

/-- `City.expand_worked_tiles`. -/
def City.expand_worked_tiles (self : City) (gm : GameMap) (allCities : List City)
    (radius : Int) : City × GameMap :=
  expandLoop gm allCities radius (self.population - self.worked_tiles.length).toNat self

/-- The `while len(worked) > population` loop of `City.contract_worked_tiles`
(city.py lines 105-112): pop the most recently added worked tile and release
it when it is still claimed by this city.  Each iteration removes one tile,
so `len(worked)` iterations of fuel reproduce the loop.  (With a negative
population the source would exhaust the list and fault on `pop()`; the
embedding stops at the empty list.) -/
def contractLoop : Nat → City → GameMap → City × GameMap
  | 0, self, gm => (self, gm)
  | fuel + 1, self, gm =>
      if (self.worked_tiles.length : Int) > self.population then
        match self.worked_tiles.getLast? with
        | none => (self, gm)
        | some removed =>
            let self' := { self with worked_tiles := self.worked_tiles.dropLast }
            let gm' :=
              if (gm.get_tile removed.1 removed.2).any (fun t =>
                  t.claim.map TileClaim.city_id = some self.city_id) then
                gm.modifyTile removed.1 removed.2 (fun t => t.releaseBy self.city_id)
              else gm
            contractLoop fuel self' gm'
      else (self, gm)

/-- `City.contract_worked_tiles`. -/
def City.contract_worked_tiles (self : City) (gm : GameMap) : City × GameMap :=
  contractLoop self.worked_tiles.length self gm

/-- `City.update_worked_tiles` (city.py lines 114-117): expand, then
contract. -/
def City.update_worked_tiles (self : City) (gm : GameMap) (allCities : List City)
    (radius : Int) : City × GameMap :=
  let r := self.expand_worked_tiles gm allCities radius
  r.1.contract_worked_tiles r.2

/-- The external events claim C4 quantifies over: an externally imposed
population change of city `i`, or a `update_worked_tiles` call on city `i`
passing the shared map and the full city list. -/
inductive CityOp where
  | setPop (i : Nat) (p : Int)
  | update (i : Nat)

/-- Apply one event to the shared state (all cities, shared map). -/
def applyCityOp (s : List City × GameMap) : CityOp → List City × GameMap
  | CityOp.setPop i p =>
      match s.1.get? i with
      | none => s
      | some c => (s.1.set i { c with population := p }, s.2)
  | CityOp.update i =>
      match s.1.get? i with
      | none => s
      | some self =>
          let r := self.update_worked_tiles s.2 s.1 1
          (s.1.set i r.1, r.2)

/-- A whole sequence of population changes and update calls. -/
def runCityOps (s : List City × GameMap) (ops : List CityOp) : List City × GameMap :=
  ops.foldl applyCityOp s

/-- A 1x1 map whose only tile is a mountain. -/
def mountainMap : GameMap :=
  { width := 1, height := 1
    tiles := [[{ x := 0, y := 0, terrain := Terrain.mountain, claim := none, unit := none }]] }

/-- C1: counterexample.  The claim asserts every mountain tile is reported
impassable, but `GameMap.is_tile_passable` rejects only water: on a map
whose tile (0,0) is a mountain, the query answers `true`. -/
theorem C1_counterexample :
    (mountainMap.get_tile 0 0).map Tile.terrain = some Terrain.mountain
    ∧ mountainMap.is_tile_passable 0 0 = true := by
  decide

/-- C1 (amended): for every in-bounds coordinate the passability query
returns true iff the tile's terrain is not water (mountains included among
the passable terrains), and occupancy never affects the result. -/
theorem C1_passable_iff_not_water (m : GameMap) (x y : Int) :
    (m.is_tile_passable x y = true ↔
      ∃ t, m.get_tile x y = some t ∧ t.terrain ≠ Terrain.water)
    ∧ (∀ x' y' occ,
        (m.modifyTile x' y' (fun t => { t with unit := occ })).is_tile_passable x y
          = m.is_tile_passable x y) := by
  constructor
  · unfold GameMap.is_tile_passable
    cases h : m.get_tile x y with
    | none => simp
    | some t => simp [h]
  · intro x' y' occ
    have hget : (m.modifyTile x' y' (fun t => { t with unit := occ })).get_tile x y
        = (m.get_tile x y).map
            (fun t => if t.x = x' ∧ t.y = y' then { t with unit := occ } else t) := by
      unfold GameMap.get_tile GameMap.modifyTile
      by_cases hb : 0 ≤ x ∧ x < (m.width : Int) ∧ 0 ≤ y ∧ y < (m.height : Int)
      · simp only [hb, if_true, List.get?_map]
        cases hrow : m.tiles.get? y.toNat <;> simp [List.get?_map]
      · simp [hb]
    unfold GameMap.is_tile_passable
    rw [hget]
    cases hc : m.get_tile x y with
    | none => rfl
    | some t =>
        by_cases hxy : t.x = x' ∧ t.y = y' <;> simp [hxy]

/-- C9: claiming a tile already claimed by another city fails with the
"already claimed" signal and leaves the claim unchanged, and releasing with
a city id that does not match the current claim leaves the tile
unchanged. -/
theorem C9_claim_validates (t : Tile) (c : TileClaim) (cid rid oid : String)
    (hclaimed : t.claim = some c) (hother : c.city_id ≠ cid)
    (hmismatch : t.claim.map TileClaim.city_id ≠ some rid) :
    t.claimTile cid oid = (t, Except.error ("already claimed"))
    ∧ t.releaseBy rid = t := by
  have hne : c.city_id ≠ rid := by
    rw [hclaimed] at hmismatch
    intro h
    exact hmismatch (by simp [h])
  constructor
  · simp [Tile.claimTile, hclaimed, hother]
  · simp [Tile.releaseBy, hclaimed, hne]

/-- A tile currently claimed by city "cityA". -/
def claimedTile : Tile :=
  { x := 3, y := 4, terrain := Terrain.grassland
    claim := some { city_id := "cityA", owner_id := "P1" }, unit := none }

/-- C9 witness: the validation theorem applied to a concrete tile claimed by
"cityA" and a caller city "cityB". -/
theorem C9_claim_validates_witness :
    claimedTile.claimTile ("cityB") ("P2")
        = (claimedTile, Except.error ("already claimed"))
    ∧ claimedTile.releaseBy ("cityB") = claimedTile :=
  C9_claim_validates claimedTile { city_id := "cityA", owner_id := "P1" }
    ("cityB") ("cityB") ("P2") rfl (by decide) (by decide)

/-- C10: `Unit.move` never checks occupancy: with at least one movement
point and an in-bounds, cardinally adjacent, non-water target tile — whose
occupant field is arbitrary — the single-step move succeeds and places the
unit on the target with one movement point consumed. -/
theorem C10_move_ignores_occupancy (u : GUnit) (gm : GameMap) (tx ty : Int)
    (t : Tile) (hm : 1 ≤ u.moves)
    (hadj : (tx - u.x).natAbs + (ty - u.y).natAbs = 1)
    (ht : gm.get_tile tx ty = some t) (hw : t.terrain ≠ Terrain.water) :
    u.can_move tx ty gm = true
    ∧ u.move tx ty gm = ({ u with x := tx, y := ty, moves := u.moves - 1 }, true) := by
  have hpass : gm.is_tile_passable tx ty = true := by
    unfold GameMap.is_tile_passable
    rw [ht]
    simp [hw]
  have hcan : u.can_move tx ty gm = true := by
    unfold GUnit.can_move
    have : ¬ u.moves < 1 := not_lt.mpr hm
    simp [this, hadj, hpass]
  refine ⟨hcan, ?_⟩
  unfold GUnit.move
  simp [hcan]

/-- A 2x1 map whose second tile is occupied by unit 2. -/
def occupiedTargetMap : GameMap :=
  { width := 2, height := 1
    tiles := [[{ x := 0, y := 0, terrain := Terrain.grassland, claim := none, unit := some 1 },
               { x := 1, y := 0, terrain := Terrain.grassland, claim := none, unit := some 2 }]] }

/-- C10 witness: a warrior at (0,0) steps onto the adjacent grassland tile
(1,0) even though that tile's occupant field records another unit. -/
theorem C10_move_ignores_occupancy_witness :
    (mkWarrior 1 ("P1") 0 0).can_move 1 0 occupiedTargetMap = true
    ∧ (mkWarrior 1 ("P1") 0 0).move 1 0 occupiedTargetMap
        = ({ mkWarrior 1 ("P1") 0 0 with
              x := 1
              y := 0
              moves := (mkWarrior 1 ("P1") 0 0).moves - 1 }, true) :=
  C10_move_ignores_occupancy (mkWarrior 1 ("P1") 0 0) occupiedTargetMap 1 0
    { x := 1, y := 0, terrain := Terrain.grassland, claim := none, unit := some 2 }
    (by decide) (by decide) (by decide) (by decide)

/-- One `end_turn_for_current_player` call in a two-player game whose current
player is the first player `a`: `a` is marked finished; if `b` was already
finished the round advances, otherwise play rotates to `b`. -/
theorem end_turn_two_cur_first (g : Game) (a b : String) (pa pb : Player) (fb : Bool)
    (hp : g.players = [(a, pa), (b, pb)])
    (hf : g.turn_finished = [(a, false), (b, fb)])
    (hab : a ≠ b) (hc : g.current_player = some a) :
    g.end_turn_for_current_player =
      if fb then
        ({ g with
            turn := g.turn + 1
            units := g.units.map GUnit.reset_moves
            turn_finished := [(a, false), (b, false)]
            current_player := some a }, true)
      else
        ({ g with
            turn_finished := [(a, true), (b, fb)]
            current_player := some b }, false) := by
  have hba : ¬ b = a := fun h => hab h.symm
  cases fb with
  | true =>
      simp only [Game.end_turn_for_current_player, hc, hf, hp, setAssoc,
        Game.next_round, if_true]
      simp [hba, hab, List.contains_cons]
  | false =>
      simp only [Game.end_turn_for_current_player, hc, hf, hp, setAssoc,
        nextUnfinished, if_false]
      simp [hba, hab, List.contains_cons, List.indexOf_cons_self, List.find?]

/-- One `end_turn_for_current_player` call in a two-player game whose current
player is the second player `b`: `b` is marked finished; if `a` was already
finished the round advances, otherwise play rotates to `a`. -/
theorem end_turn_two_cur_second (g : Game) (a b : String) (pa pb : Player) (fa : Bool)
    (hp : g.players = [(a, pa), (b, pb)])
    (hf : g.turn_finished = [(a, fa), (b, false)])
    (hab : a ≠ b) (hc : g.current_player = some b) :
    g.end_turn_for_current_player =
      if fa then
        ({ g with
            turn := g.turn + 1
            units := g.units.map GUnit.reset_moves
            turn_finished := [(a, false), (b, false)]
            current_player := some a }, true)
      else
        ({ g with
            turn_finished := [(a, fa), (b, true)]
            current_player := some a }, false) := by
  have hba : ¬ b = a := fun h => hab h.symm
  cases fa with
  | true =>
      simp only [Game.end_turn_for_current_player, hc, hf, hp, setAssoc,
        Game.next_round, if_true]
      simp [hba, hab, List.contains_cons]
  | false =>
      simp only [Game.end_turn_for_current_player, hc, hf, hp, setAssoc,
        nextUnfinished, if_false]
      simp [hba, hab, List.contains_cons, List.indexOf_cons_self,
        List.indexOf_cons_ne, List.find?]

/-- C8: with two players both unfinished, calling `end_turn` once for each
player advances the round counter by exactly one (the first call does not
advance it), resets every unit's movement points to its kind's configured
maximum, clears both finished flags, and resets the current player to the
first player of the fixed ordering. -/
theorem C8_round_rotation (g : Game) (a b : String) (pa pb : Player)
    (hp : g.players = [(a, pa), (b, pb)])
    (hf : g.turn_finished = [(a, false), (b, false)])
    (hab : a ≠ b)
    (hc : g.current_player = some a ∨ g.current_player = some b) :
    g.end_turn_for_current_player.2 = false
    ∧ g.end_turn_for_current_player.1.turn = g.turn
    ∧ g.end_turn_for_current_player.1.end_turn_for_current_player.2 = true
    ∧ g.end_turn_for_current_player.1.end_turn_for_current_player.1.turn = g.turn + 1
    ∧ g.end_turn_for_current_player.1.end_turn_for_current_player.1.units
        = g.units.map GUnit.reset_moves
    ∧ (∀ u ∈ g.end_turn_for_current_player.1.end_turn_for_current_player.1.units,
        u.moves = unitTypeMovePoints u.kind)
    ∧ g.end_turn_for_current_player.1.end_turn_for_current_player.1.turn_finished
        = [(a, false), (b, false)]
    ∧ g.end_turn_for_current_player.1.end_turn_for_current_player.1.current_player
        = some a := by
  have hreset : ∀ u ∈ g.units.map GUnit.reset_moves, u.moves = unitTypeMovePoints u.kind := by
    intro u hu
    rcases List.mem_map.mp hu with ⟨v, _, rfl⟩
    simp [GUnit.reset_moves]
  cases hc with
  | inl hc =>
      have h1 := end_turn_two_cur_first g a b pa pb false hp hf hab hc
      simp only [if_neg (Bool.false_ne_true)] at h1
      rw [h1]
      have h2 := end_turn_two_cur_second
        ({ g with turn_finished := [(a, true), (b, false)], current_player := some b })
        a b pa pb true (by simp [hp]) (by simp) hab (by simp)
      simp only [if_pos rfl] at h2
      rw [h2]
      exact ⟨rfl, rfl, rfl, rfl, rfl, hreset, rfl, rfl⟩
  | inr hc =>
      have h1 := end_turn_two_cur_second g a b pa pb false hp hf hab hc
      simp only [if_neg (Bool.false_ne_true)] at h1
      rw [h1]
      have h2 := end_turn_two_cur_first
        ({ g with turn_finished := [(a, false), (b, true)], current_player := some a })
        a b pa pb true (by simp [hp]) (by simp) hab (by simp)
      simp only [if_pos rfl] at h2
      rw [h2]
      exact ⟨rfl, rfl, rfl, rfl, rfl, hreset, rfl, rfl⟩

/-- A concrete two-player game in round 5 with one unit per player, both
units out of movement points. -/
def twoPlayerGame : Game :=
  { map := occupiedTargetMap
    units := [{ mkWarrior 1 ("P1") 0 0 with moves := 0, attackedThisTurn := true },
              { mkSettler 2 ("P2") 1 0 with moves := 0 }]
    players := [("P1", mkPlayer ("P1") true none), ("P2", mkPlayer ("P2") true none)]
    current_player := some ("P1")
    turn := 5
    turn_finished := [("P1", false), ("P2", false)] }

/-- C8 witness: the rotation theorem applied to the concrete two-player
game. -/
theorem C8_round_rotation_witness :
    twoPlayerGame.end_turn_for_current_player.2 = false
    ∧ twoPlayerGame.end_turn_for_current_player.1.turn = twoPlayerGame.turn
    ∧ twoPlayerGame.end_turn_for_current_player.1.end_turn_for_current_player.2 = true
    ∧ twoPlayerGame.end_turn_for_current_player.1.end_turn_for_current_player.1.turn
        = twoPlayerGame.turn + 1
    ∧ twoPlayerGame.end_turn_for_current_player.1.end_turn_for_current_player.1.units
        = twoPlayerGame.units.map GUnit.reset_moves
    ∧ (∀ u ∈ twoPlayerGame.end_turn_for_current_player.1.end_turn_for_current_player.1.units,
        u.moves = unitTypeMovePoints u.kind)
    ∧ twoPlayerGame.end_turn_for_current_player.1.end_turn_for_current_player.1.turn_finished
        = [(("P1" : String), false), (("P2" : String), false)]
    ∧ twoPlayerGame.end_turn_for_current_player.1.end_turn_for_current_player.1.current_player
        = some ("P1") :=
  C8_round_rotation twoPlayerGame ("P1") ("P2")
    (mkPlayer ("P1") true none) (mkPlayer ("P2") true none)
    rfl rfl (by decide) (Or.inl rfl)

/-- Unit serialization round-trip: a warrior comes back identical except for
the attacked-this-round flag (not part of the snapshot, reset by the
constructor); a settler likewise, provided its phantom `attack` field holds
the 0 no settler code path can change. -/
theorem unit_roundtrip (u : GUnit) (hwf : u.kind = UKind.settler → u.attack = 0) :
    unitFromDict u.to_dict = { u with attackedThisTurn := false } := by
  cases hk : u.kind with
  | warrior => simp [unitFromDict, GUnit.to_dict, hk]
  | settler =>
      have ha : u.attack = 0 := hwf hk
      simp [unitFromDict, GUnit.to_dict, hk, ha]

/-- Player serialization round-trip is the identity. -/
theorem player_roundtrip (p : Player) : playerFromDict p.to_dict = p := rfl

/-- The current player chosen by the `Game` constructor is always a key of
the player dictionary (when there are players). -/
theorem mkGame_current_contains (gm : GameMap) (units : List GUnit)
    (players : List (String × Player)) (cur : Option String) (turn : Int)
    (hne : players ≠ []) :
    ∃ c, (mkGame gm units players cur turn).current_player = some c
      ∧ (players.map Prod.fst).contains c = true := by
  have hhead : ∃ k, (players.map Prod.fst).head? = some k
      ∧ (players.map Prod.fst).contains k = true := by
    cases players with
    | nil => exact absurd rfl hne
    | cons p ps => exact ⟨p.1, rfl, by simp [List.contains_cons]⟩
  rcases hhead with ⟨k, hk, hck⟩
  cases cur with
  | none =>
      refine ⟨k, ?_, hck⟩
      show (if players = [] then none else (players.map Prod.fst).head?) = some k
      rw [if_neg hne]
      exact hk
  | some c =>
      by_cases hc : (players.map Prod.fst).contains c = true
      · refine ⟨c, ?_, hc⟩
        show (if players = [] then none
          else
            if (players.map Prod.fst).contains c then some c
            else (players.map Prod.fst).head?) = some c
        rw [if_neg hne, if_pos hc]
      · refine ⟨k, ?_, hck⟩
        show (if players = [] then none
          else
            if (players.map Prod.fst).contains c then some c
            else (players.map Prod.fst).head?) = some k
        rw [if_neg hne, if_neg hc]
        exact hk

/-- C2: serializing a game built by the `Game` constructor and deserializing
yields a game with identical units (positions and stats; the non-serialized
attacked-this-round flag comes back cleared), identical player rosters,
identical current player and identical round counter.  The hypothesis pins
the settlers' phantom `attack` field, which no source code path can make
nonzero. -/
theorem C2_serialize_roundtrip (gm : GameMap) (units : List GUnit)
    (players : List (String × Player)) (cur : Option String) (turn : Int)
    (hwf : ∀ u ∈ units, u.kind = UKind.settler → u.attack = 0) :
    (gameFromDict (mkGame gm units players cur turn).to_dict).units
        = units.map (fun u => { u with attackedThisTurn := false })
    ∧ (gameFromDict (mkGame gm units players cur turn).to_dict).units.map
          (fun u => (u.unique_id, u.owner, u.kind, u.x, u.y, u.moves, u.hp,
            u.attack, u.selected))
        = units.map (fun u => (u.unique_id, u.owner, u.kind, u.x, u.y, u.moves,
            u.hp, u.attack, u.selected))
    ∧ (gameFromDict (mkGame gm units players cur turn).to_dict).players = players
    ∧ (gameFromDict (mkGame gm units players cur turn).to_dict).current_player
        = (mkGame gm units players cur turn).current_player
    ∧ (gameFromDict (mkGame gm units players cur turn).to_dict).turn = turn := by
  have hunits0 : (mkGame gm units players cur turn).units = units := rfl
  have hplayers0 : (mkGame gm units players cur turn).players = players := rfl
  have hturn0 : (mkGame gm units players cur turn).turn = turn := rfl
  have humap : ((mkGame gm units players cur turn).to_dict.units.map unitFromDict)
      = units.map (fun u => { u with attackedThisTurn := false }) := by
    show ((units.map GUnit.to_dict).map unitFromDict) = _
    rw [List.map_map]
    exact List.map_congr_left (fun u hu => unit_roundtrip u (hwf u hu))
  have hpmap : ((mkGame gm units players cur turn).to_dict.players.map
      (fun p => (p.1, playerFromDict p.2))) = players := by
    show ((players.map (fun p => (p.1, p.2.to_dict))).map (fun p => (p.1, playerFromDict p.2))) = _
    rw [List.map_map]
    calc players.map ((fun p => (p.1, playerFromDict p.2)) ∘ (fun p => (p.1, p.2.to_dict)))
        = players.map id := List.map_congr_left (fun p _ => by cases p; rfl)
      _ = players := List.map_id players
  have hukeep : (gameFromDict (mkGame gm units players cur turn).to_dict).units
      = units.map (fun u => { u with attackedThisTurn := false }) := by
    show ((mkGame gm units players cur turn).to_dict.units.map unitFromDict) = _
    exact humap
  refine ⟨hukeep, ?_, ?_, ?_, rfl⟩
  · rw [hukeep, List.map_map]
    rfl
  · show ((mkGame gm units players cur turn).to_dict.players.map
        (fun p => (p.1, playerFromDict p.2))) = players
    exact hpmap
  · show (mkGame (mapFromDict (mkGame gm units players cur turn).to_dict.map)
        ((mkGame gm units players cur turn).to_dict.units.map unitFromDict)
        ((mkGame gm units players cur turn).to_dict.players.map
          (fun p => (p.1, playerFromDict p.2)))
        (mkGame gm units players cur turn).current_player turn).current_player
      = (mkGame gm units players cur turn).current_player
    rw [hpmap]
    by_cases hne : players = []
    · subst hne
      rfl
    · rcases mkGame_current_contains gm units players cur turn hne with ⟨c, hc, hcontains⟩
      rw [hc]
      show (if players = [] then none
        else
          match some c with
          | some c' =>
              if (players.map Prod.fst).contains c' then some c'
              else (players.map Prod.fst).head?
          | none => (players.map Prod.fst).head?) = some c
      rw [if_neg hne]
      show (if (players.map Prod.fst).contains c then some c
        else (players.map Prod.fst).head?) = some c
      rw [if_pos hcontains]

/-- C2 witness: the round-trip theorem applied to a concrete game with a
warrior, a settler, two players, current player "P2" and round counter 3. -/
theorem C2_serialize_roundtrip_witness :
    (gameFromDict (mkGame occupiedTargetMap
        [mkWarrior 1 ("P1") 0 0, mkSettler 2 ("P2") 1 0]
        [("P1", mkPlayer ("P1") true none), ("P2", mkPlayer ("P2") false none)]
        (some ("P2")) 3).to_dict).units
      = [mkWarrior 1 ("P1") 0 0, mkSettler 2 ("P2") 1 0].map
          (fun u => { u with attackedThisTurn := false })
    ∧ (gameFromDict (mkGame occupiedTargetMap
        [mkWarrior 1 ("P1") 0 0, mkSettler 2 ("P2") 1 0]
        [("P1", mkPlayer ("P1") true none), ("P2", mkPlayer ("P2") false none)]
        (some ("P2")) 3).to_dict).units.map
          (fun u => (u.unique_id, u.owner, u.kind, u.x, u.y, u.moves, u.hp,
            u.attack, u.selected))
      = [mkWarrior 1 ("P1") 0 0, mkSettler 2 ("P2") 1 0].map
          (fun u => (u.unique_id, u.owner, u.kind, u.x, u.y, u.moves, u.hp,
            u.attack, u.selected))
    ∧ (gameFromDict (mkGame occupiedTargetMap
        [mkWarrior 1 ("P1") 0 0, mkSettler 2 ("P2") 1 0]
        [("P1", mkPlayer ("P1") true none), ("P2", mkPlayer ("P2") false none)]
        (some ("P2")) 3).to_dict).players
      = [("P1", mkPlayer ("P1") true none), ("P2", mkPlayer ("P2") false none)]
    ∧ (gameFromDict (mkGame occupiedTargetMap
        [mkWarrior 1 ("P1") 0 0, mkSettler 2 ("P2") 1 0]
        [("P1", mkPlayer ("P1") true none), ("P2", mkPlayer ("P2") false none)]
        (some ("P2")) 3).to_dict).current_player
      = (mkGame occupiedTargetMap
        [mkWarrior 1 ("P1") 0 0, mkSettler 2 ("P2") 1 0]
        [("P1", mkPlayer ("P1") true none), ("P2", mkPlayer ("P2") false none)]
        (some ("P2")) 3).current_player
    ∧ (gameFromDict (mkGame occupiedTargetMap
        [mkWarrior 1 ("P1") 0 0, mkSettler 2 ("P2") 1 0]
        [("P1", mkPlayer ("P1") true none), ("P2", mkPlayer ("P2") false none)]
        (some ("P2")) 3).to_dict).turn = 3 :=
  C2_serialize_roundtrip occupiedTargetMap
    [mkWarrior 1 ("P1") 0 0, mkSettler 2 ("P2") 1 0]
    [("P1", mkPlayer ("P1") true none), ("P2", mkPlayer ("P2") false none)]
    (some ("P2")) 3 (by decide)

/-- In a unit list with pairwise distinct ids, distinct member records have
distinct ids. -/
theorem mem_ids_ne {l : List GUnit} (hnodup : (l.map GUnit.unique_id).Nodup)
    {a b : GUnit} (ha : a ∈ l) (hb : b ∈ l) (hne : a ≠ b) :
    a.unique_id ≠ b.unique_id := by
  intro h
  exact hne (List.inj_on_of_nodup_map hnodup ha hb h)

/-- An element whose id differs from the replaced id survives `replaceUnit`
unchanged. -/
theorem mem_replaceUnit_ne {l : List GUnit} {uid : Nat} {v u : GUnit}
    (hu : u ∈ l) (hne : u.unique_id ≠ uid) : u ∈ replaceUnit l uid v := by
  unfold replaceUnit
  exact List.mem_map.mpr ⟨u, hu, by simp [hne]⟩

/-- If some element carries the replaced id, the replacement is a member of
the result. -/
theorem mem_replaceUnit_self {l : List GUnit} {uid : Nat} {v u : GUnit}
    (hu : u ∈ l) (heq : u.unique_id = uid) : v ∈ replaceUnit l uid v := by
  unfold replaceUnit
  exact List.mem_map.mpr ⟨u, hu, by simp [heq]⟩

/-- Every member of `replaceUnit l uid v` is `v` or a member of `l`. -/
theorem mem_of_mem_replaceUnit {l : List GUnit} {uid : Nat} {v u : GUnit}
    (hu : u ∈ replaceUnit l uid v) : u = v ∨ u ∈ l := by
  unfold replaceUnit at hu
  rcases List.mem_map.mp hu with ⟨w, hw, hwe⟩
  by_cases h : w.unique_id = uid
  · simp [h] at hwe
    exact Or.inl hwe.symm
  · simp [h] at hwe
    exact Or.inr (hwe ▸ hw)

/-- Replacing the same id twice keeps only the last replacement (when the
first replacement preserves the id, as every use here does). -/
theorem replaceUnit_replaceUnit {l : List GUnit} {uid : Nat} {v w : GUnit}
    (hv : v.unique_id = uid) :
    replaceUnit (replaceUnit l uid v) uid w = replaceUnit l uid w := by
  unfold replaceUnit
  rw [List.map_map]
  apply List.map_congr_left
  intro u _
  by_cases h : u.unique_id = uid <;> simp [h, hv]

/-- Filtering out the replaced id erases the replacement (when the
replacement preserves the id). -/
theorem filter_ne_replaceUnit {l : List GUnit} {uid : Nat} {v : GUnit}
    (hv : v.unique_id = uid) :
    (replaceUnit l uid v).filter (fun u => u.unique_id ≠ uid)
      = l.filter (fun u => u.unique_id ≠ uid) := by
  induction l with
  | nil => rfl
  | cons u t ih =>
      by_cases h : u.unique_id = uid <;>
        simp [replaceUnit, h, hv, List.filter_cons] <;>
        simpa [replaceUnit] using ih

/-- `MeleeUnit.can_attack` answers true exactly for: different owners, at
least one movement point, not yet attacked this round, and cardinal
adjacency. -/
theorem canAttackMelee_true_iff (a t : GUnit) :
    a.canAttackMelee t = true ↔
      (a.owner ≠ t.owner ∧ 1 ≤ a.moves ∧ a.attackedThisTurn = false
        ∧ (a.x - t.x).natAbs + (a.y - t.y).natAbs = 1) := by
  unfold GUnit.canAttackMelee GUnit.canAttackBase
  by_cases h1 : a.owner = t.owner <;> by_cases h2 : a.moves < 1 <;>
    by_cases h3 : a.attackedThisTurn = true <;>
    by_cases h4 : (a.x - t.x).natAbs + (a.y - t.y).natAbs = 1 <;>
    simp [h1, h2, h3, h4, not_lt] <;> omega

/-- C7 (amended): a melee attack succeeds iff the attacker and target have
different owners, the attacker has at least one movement point and has not
yet attacked this round, and the two units are cardinally adjacent.  On
success the attacker's movement points become 0 with its attacked-flag set,
and the attacker's attack value is subtracted from the target's hit points —
except that a non-combat target whose hit points would drop to 0 or below is
instead captured with hit points reset to its kind's maximum (a combat
target at 0 or below is removed from the unit list). -/
theorem C7_melee_attack_amended (g : Game) (gm : GameMap) (atk tgt : GUnit)
    (hatk : atk ∈ g.units) (htgt : tgt ∈ g.units)
    (hk : atk.kind = UKind.warrior)
    (hnodup : (g.units.map GUnit.unique_id).Nodup) :
    ((meleeAttackUnit atk tgt g gm).2.2 = true ↔
      (atk.owner ≠ tgt.owner ∧ 1 ≤ atk.moves ∧ atk.attackedThisTurn = false
        ∧ (atk.x - tgt.x).natAbs + (atk.y - tgt.y).natAbs = 1))
    ∧ ((meleeAttackUnit atk tgt g gm).2.2 = true →
        ({ atk with moves := 0, attackedThisTurn := true }
            ∈ (meleeAttackUnit atk tgt g gm).1.units
        ∧ (tgt.kind = UKind.warrior →
            (tgt.hp - atk.attack ≤ 0 →
              ∀ u ∈ (meleeAttackUnit atk tgt g gm).1.units, u.unique_id ≠ tgt.unique_id)
            ∧ (0 < tgt.hp - atk.attack →
              { tgt with hp := tgt.hp - atk.attack }
                ∈ (meleeAttackUnit atk tgt g gm).1.units))
        ∧ (tgt.kind = UKind.settler →
            (tgt.hp - atk.attack ≤ 0 →
              { tgt with owner := atk.owner, hp := unitTypeHp UKind.settler }
                ∈ (meleeAttackUnit atk tgt g gm).1.units)
            ∧ (0 < tgt.hp - atk.attack →
              { tgt with hp := tgt.hp - atk.attack }
                ∈ (meleeAttackUnit atk tgt g gm).1.units)))) := by
  by_cases hadj : (atk.x - tgt.x).natAbs + (atk.y - tgt.y).natAbs = 1
  case neg =>
    have hrun : meleeAttackUnit atk tgt g gm = (g, gm, false) := by
      unfold meleeAttackUnit
      rw [if_pos hadj]
    rw [hrun]
    refine ⟨⟨fun h => absurd h (by simp), fun h => absurd h.2.2.2 hadj⟩,
      fun h => absurd h (by simp)⟩
  case pos =>
    by_cases hcan : atk.canAttackMelee tgt = true
    case neg =>
      have hrun : meleeAttackUnit atk tgt g gm = (g, gm, false) := by
        unfold meleeAttackUnit
        rw [if_neg (not_not_intro hadj), if_pos (by simpa using hcan)]
      rw [hrun]
      refine ⟨⟨fun h => absurd h (by simp),
        fun h => absurd ((canAttackMelee_true_iff atk tgt).mpr h) hcan⟩,
        fun h => absurd h (by simp)⟩
    case pos =>
      have hconds := (canAttackMelee_true_iff atk tgt).mp hcan
      have hrec : atk ≠ tgt := by
        intro h
        exact hconds.1 (by rw [h])
      have hid : atk.unique_id ≠ tgt.unique_id := mem_ids_ne hnodup hatk htgt hrec
      have hrun : meleeAttackUnit atk tgt g gm
          = ({ (takeDamage tgt atk.attack g gm atk).2.1 with
                units := replaceUnit (takeDamage tgt atk.attack g gm atk).2.1.units
                  atk.unique_id { atk with moves := 0, attackedThisTurn := true } },
             (takeDamage tgt atk.attack g gm atk).2.2, true) := by
        unfold meleeAttackUnit
        rw [if_neg (not_not_intro hadj), if_neg (not_not_intro hcan)]
      rw [hrun]
      refine ⟨by simp [hconds], fun _ => ?_⟩
      by_cases hkw : tgt.kind = UKind.warrior
      · have hstep : takeDamage tgt atk.attack g gm atk
            = combatTakeDamage tgt atk.attack g gm := by
          unfold takeDamage
          rw [hkw]
        have hunits : (takeDamage tgt atk.attack g gm atk).2.1.units
            = if tgt.hp - atk.attack ≤ 0 then
                g.units.filter (fun u => u.unique_id ≠ tgt.unique_id)
              else replaceUnit g.units tgt.unique_id { tgt with hp := tgt.hp - atk.attack } := by
          rw [hstep]
          unfold combatTakeDamage
          by_cases hdead : tgt.hp - atk.attack ≤ 0
          · rw [if_pos hdead]
            simp only [if_pos hdead]
            exact filter_ne_replaceUnit rfl
          · rw [if_neg hdead]
            simp only [if_neg hdead]
        by_cases hdead : tgt.hp - atk.attack ≤ 0
        · rw [hunits, if_pos hdead]
          refine ⟨?_, ?_, ?_⟩
          · have hmem : atk ∈ g.units.filter (fun u => u.unique_id ≠ tgt.unique_id) :=
              List.mem_filter.mpr ⟨hatk, by simpa using hid⟩
            exact mem_replaceUnit_self hmem rfl
          · intro _
            refine ⟨fun _ u hu => ?_, fun hlive => absurd hdead (by omega)⟩
            rcases mem_of_mem_replaceUnit hu with h | h
            · rw [h]
              exact hid
            · simpa using (List.mem_filter.mp h).2
          · intro hsettler
            rw [hkw] at hsettler
            exact absurd hsettler (by decide)
        · rw [hunits, if_neg hdead]
          refine ⟨?_, ?_, ?_⟩
          · have hmem : atk ∈ replaceUnit g.units tgt.unique_id
                { tgt with hp := tgt.hp - atk.attack } :=
              mem_replaceUnit_ne hatk hid
            exact mem_replaceUnit_self hmem rfl
          · intro _
            refine ⟨fun hdead2 => absurd hdead2 hdead, fun _ => ?_⟩
            have hmem : ({ tgt with hp := tgt.hp - atk.attack } : GUnit)
                ∈ replaceUnit g.units tgt.unique_id { tgt with hp := tgt.hp - atk.attack } :=
              mem_replaceUnit_self htgt rfl
            exact mem_replaceUnit_ne hmem (by simpa using hid.symm)
          · intro hsettler
            rw [hkw] at hsettler
            exact absurd hsettler (by decide)
      · have htk : tgt.kind = UKind.settler := by
          cases h2 : tgt.kind
          · exact absurd h2 hkw
          · rfl
        have hhp : unitTypeHp tgt.kind = unitTypeHp UKind.settler := by rw [htk]
        have hstep : takeDamage tgt atk.attack g gm atk
            = nonCombatTakeDamage tgt atk.attack g gm atk := by
          unfold takeDamage
          rw [htk]
        have hunits : (takeDamage tgt atk.attack g gm atk).2.1.units
            = if tgt.hp - atk.attack ≤ 0 then
                replaceUnit g.units tgt.unique_id
                  { tgt with owner := atk.owner, hp := unitTypeHp UKind.settler }
              else replaceUnit g.units tgt.unique_id { tgt with hp := tgt.hp - atk.attack } := by
          rw [hstep]
          unfold nonCombatTakeDamage
          by_cases hdead : tgt.hp - atk.attack ≤ 0
          · rw [if_pos hdead]
            have hcond : ({ tgt with hp := tgt.hp - atk.attack } : GUnit).hp ≤ 0
                ∧ atk.kind = UKind.warrior := ⟨hdead, hk⟩
            simp only [if_pos hcond]
            rw [replaceUnit_replaceUnit (v := { tgt with hp := tgt.hp - atk.attack }) rfl]
            have hmem : ({ tgt with
                  owner := atk.owner
                  hp := unitTypeHp ({ tgt with hp := tgt.hp - atk.attack } : GUnit).kind } : GUnit)
                ∈ replaceUnit g.units tgt.unique_id
                  { tgt with
                    owner := atk.owner
                    hp := unitTypeHp ({ tgt with hp := tgt.hp - atk.attack } : GUnit).kind } :=
              mem_replaceUnit_self htgt rfl
            have hany : (replaceUnit g.units tgt.unique_id
                { tgt with owner := atk.owner
                           hp := unitTypeHp ({ tgt with hp := tgt.hp - atk.attack } : GUnit).kind }).any
                  (fun u => u.unique_id = tgt.unique_id) = true :=
              List.any_eq_true.mpr ⟨_, hmem, by simp⟩
            rw [if_pos hany]
            show replaceUnit g.units tgt.unique_id
                { tgt with owner := atk.owner, hp := unitTypeHp tgt.kind } = _
            rw [hhp]
          · rw [if_neg hdead]
            have hcond : ¬ (({ tgt with hp := tgt.hp - atk.attack } : GUnit).hp ≤ 0
                ∧ atk.kind = UKind.warrior) := fun hc => hdead hc.1
            simp only [if_neg hcond]
        by_cases hdead : tgt.hp - atk.attack ≤ 0
        · rw [hunits, if_pos hdead]
          refine ⟨?_, ?_, ?_⟩
          · have hmem : atk ∈ replaceUnit g.units tgt.unique_id
                { tgt with owner := atk.owner, hp := unitTypeHp UKind.settler } :=
              mem_replaceUnit_ne hatk hid
            exact mem_replaceUnit_self hmem rfl
          · intro hwar
            exact absurd hwar hkw
          · intro _
            refine ⟨fun _ => ?_, fun hlive => absurd hdead (by omega)⟩
            have hmem : ({ tgt with owner := atk.owner, hp := unitTypeHp UKind.settler } : GUnit)
                ∈ replaceUnit g.units tgt.unique_id
                  { tgt with owner := atk.owner, hp := unitTypeHp UKind.settler } :=
              mem_replaceUnit_self htgt rfl
            exact mem_replaceUnit_ne hmem (by simpa using hid.symm)
        · rw [hunits, if_neg hdead]
          refine ⟨?_, ?_, ?_⟩
          · have hmem : atk ∈ replaceUnit g.units tgt.unique_id
                { tgt with hp := tgt.hp - atk.attack } :=
              mem_replaceUnit_ne hatk hid
            exact mem_replaceUnit_self hmem rfl
          · intro hwar
            exact absurd hwar hkw
          · intro _
            refine ⟨fun hdead2 => absurd hdead2 hdead, fun _ => ?_⟩
            have hmem : ({ tgt with hp := tgt.hp - atk.attack } : GUnit)
                ∈ replaceUnit g.units tgt.unique_id { tgt with hp := tgt.hp - atk.attack } :=
              mem_replaceUnit_self htgt rfl
            exact mem_replaceUnit_ne hmem (by simpa using hid.symm)

/-- The attacking warrior of the concrete combat scenarios. -/
def attackerW : GUnit := mkWarrior 1 ("P1") 0 0

/-- An enemy settler at 20 hit points standing one tile south. -/
def woundedSettler : GUnit := { mkSettler 2 ("P2") 0 1 with hp := 20 }

/-- An enemy warrior at 20 hit points standing one tile south. -/
def woundedWarrior : GUnit := { mkWarrior 2 ("P2") 0 1 with hp := 20 }

/-- A 1x2 all-grassland map for the combat scenarios. -/
def combatMap : GameMap :=
  { width := 1, height := 2
    tiles := [[{ x := 0, y := 0, terrain := Terrain.grassland, claim := none, unit := some 1 }],
              [{ x := 0, y := 1, terrain := Terrain.grassland, claim := none, unit := some 2 }]] }

/-- A game holding the attacker and the wounded settler, with each unit on
its owner's roster. -/
def captureGame : Game :=
  { map := combatMap
    units := [attackerW, woundedSettler]
    players := [("P1", { mkPlayer ("P1") true none with unit_ids := [1] }),
                ("P2", { mkPlayer ("P2") true none with unit_ids := [2] })]
    current_player := some ("P1")
    turn := 1
    turn_finished := [("P1", false), ("P2", false)] }

/-- A game holding the attacker and the wounded warrior, with each unit on
its owner's roster. -/
def killGame : Game :=
  { map := combatMap
    units := [attackerW, woundedWarrior]
    players := [("P1", { mkPlayer ("P1") true none with unit_ids := [1] }),
                ("P2", { mkPlayer ("P2") true none with unit_ids := [2] })]
    current_player := some ("P1")
    turn := 1
    turn_finished := [("P1", false), ("P2", false)] }

/-- C7: counterexample.  The claim asserts every successful attack decreases
the target's hit points by exactly the attacker's attack value, but a
captured settler's hit points reset to the kind's maximum: attacking the
20-hp settler with a 25-attack warrior succeeds and leaves the settler at
100 hp, not at 20 - 25. -/
theorem C7_counterexample :
    (meleeAttackUnit attackerW woundedSettler captureGame combatMap).2.2 = true
    ∧ ((meleeAttackUnit attackerW woundedSettler captureGame combatMap).1.units.find?
        (fun u => u.unique_id = 2)).map GUnit.hp = some 100
    ∧ woundedSettler.hp - attackerW.attack ≠ (100 : Int) := by
  decide

/-- C7 witness: the amended attack theorem applied to the concrete capture
scenario. -/
theorem C7_melee_attack_amended_witness :
    ((meleeAttackUnit attackerW woundedSettler captureGame combatMap).2.2 = true ↔
      (attackerW.owner ≠ woundedSettler.owner ∧ 1 ≤ attackerW.moves
        ∧ attackerW.attackedThisTurn = false
        ∧ (attackerW.x - woundedSettler.x).natAbs
            + (attackerW.y - woundedSettler.y).natAbs = 1))
    ∧ ((meleeAttackUnit attackerW woundedSettler captureGame combatMap).2.2 = true →
        ({ attackerW with moves := 0, attackedThisTurn := true }
            ∈ (meleeAttackUnit attackerW woundedSettler captureGame combatMap).1.units
        ∧ (woundedSettler.kind = UKind.warrior →
            (woundedSettler.hp - attackerW.attack ≤ 0 →
              ∀ u ∈ (meleeAttackUnit attackerW woundedSettler captureGame combatMap).1.units,
                u.unique_id ≠ woundedSettler.unique_id)
            ∧ (0 < woundedSettler.hp - attackerW.attack →
              { woundedSettler with hp := woundedSettler.hp - attackerW.attack }
                ∈ (meleeAttackUnit attackerW woundedSettler captureGame combatMap).1.units))
        ∧ (woundedSettler.kind = UKind.settler →
            (woundedSettler.hp - attackerW.attack ≤ 0 →
              { woundedSettler with owner := attackerW.owner, hp := unitTypeHp UKind.settler }
                ∈ (meleeAttackUnit attackerW woundedSettler captureGame combatMap).1.units)
            ∧ (0 < woundedSettler.hp - attackerW.attack →
              { woundedSettler with hp := woundedSettler.hp - attackerW.attack }
                ∈ (meleeAttackUnit attackerW woundedSettler captureGame combatMap).1.units)))) :=
  C7_melee_attack_amended captureGame combatMap attackerW woundedSettler
    (by decide) (by decide) (by decide) (by decide)

/-- C3: behavior at the failing input.  Killing the enemy warrior removes it
from the game's unit list, but its owner's roster (`Player.unit_ids`) still
contains its id, because the roster update in `take_damage` is guarded by
`hasattr(player, "units")`, which no `Player` instance satisfies.  Likewise
capturing the enemy settler transfers ownership, resets hit points and keeps
it on the board, but neither the old nor the new owner's roster changes. -/
theorem C3_roster_never_updated :
    ((meleeAttackUnit attackerW woundedWarrior killGame combatMap).2.2 = true
      ∧ (∀ u ∈ (meleeAttackUnit attackerW woundedWarrior killGame combatMap).1.units,
          u.unique_id ≠ 2)
      ∧ ((meleeAttackUnit attackerW woundedWarrior killGame combatMap).1.players.find?
          (fun p => p.1 = ("P2"))).map (fun p => p.2.unit_ids) = some [2])
    ∧ ((meleeAttackUnit attackerW woundedSettler captureGame combatMap).2.2 = true
      ∧ ({ woundedSettler with owner := ("P1"), hp := 100 }
          ∈ (meleeAttackUnit attackerW woundedSettler captureGame combatMap).1.units)
      ∧ ((meleeAttackUnit attackerW woundedSettler captureGame combatMap).1.players.find?
          (fun p => p.1 = ("P2"))).map (fun p => p.2.unit_ids) = some [2]
      ∧ ((meleeAttackUnit attackerW woundedSettler captureGame combatMap).1.players.find?
          (fun p => p.1 = ("P1"))).map (fun p => p.2.unit_ids) = some [1]) := by
  decide

/-- A legal BFS step: the destination is cardinally adjacent to the origin,
lies inside the configured bounds, and its tile exists and is not water. -/
def StepOk (gm : GameMap) (a b : Int × Int) : Prop :=
  (b.1 - a.1).natAbs + (b.2 - a.2).natAbs = 1
  ∧ 0 ≤ b.1 ∧ b.1 < MAP_WIDTH ∧ 0 ≤ b.2 ∧ b.2 < MAP_HEIGHT
  ∧ ∃ t, gm.get_tile b.1 b.2 = some t ∧ t.terrain ≠ Terrain.water

/-- Invariant of a BFS queue entry `(c, path, dist)`: the path runs from the
start to `c`, has `dist` steps all legal, and `dist` is 0 (the initial
entry) or between 1 and the movement budget. -/
def EntryOk (gm : GameMap) (start : Int × Int) (m : Int)
    (e : (Int × Int) × List (Int × Int) × Nat) : Prop :=
  e.2.1.head? = some start
  ∧ e.2.1.getLast? = some e.1
  ∧ e.2.1.length = e.2.2 + 1
  ∧ List.Chain' (StepOk gm) e.2.1
  ∧ (e.2.2 = 0 ∨ (1 ≤ e.2.2 ∧ (e.2.2 : Int) ≤ m))

/-- Invariant of the visited (= enqueued) set: every member other than the
start coordinate has a non-water tile. -/
def VisitedOk (gm : GameMap) (start : Int × Int) (c : Int × Int) : Prop :=
  c ≠ start → ∃ t, gm.get_tile c.1 c.2 = some t ∧ t.terrain ≠ Terrain.water

/-- Invariant of a `path_map` entry `(t, p)`: `p` runs from the start to
`t`, makes at least one and at most budget-many steps, all legal. -/
def PMOk (gm : GameMap) (start : Int × Int) (m : Int)
    (pr : (Int × Int) × List (Int × Int)) : Prop :=
  pr.2.head? = some start
  ∧ pr.2.getLast? = some pr.1
  ∧ 2 ≤ pr.2.length
  ∧ ((pr.2.length : Int) - 1 ≤ m)
  ∧ List.Chain' (StepOk gm) pr.2

/-- The full BFS loop invariant. -/
def StateOk (g : Game) (u : GUnit) (st : BfsState) : Prop :=
  (∀ e ∈ st.queue, EntryOk g.map (u.x, u.y) u.moves e)
  ∧ (∀ c ∈ st.visited, VisitedOk g.map (u.x, u.y) c)
  ∧ (∀ pr ∈ st.path_map, PMOk g.map (u.x, u.y) u.moves pr)
  ∧ st.valid_moves = st.path_map.map Prod.fst
  ∧ List.Forall₂
      (fun (pr : (Int × Int) × List (Int × Int)) (dr : (Int × Int) × Nat) =>
        pr.1 = dr.1 ∧ pr.2.length = dr.2 + 1)
      st.path_map st.dist_map
  ∧ (∀ c ∈ st.valid_moves,
      ¬ ∃ v ∈ g.units, v.x = c.1 ∧ v.y = c.2 ∧ v ≠ u)

/-- One neighbor-scan step preserves the invariant, given that the dequeued
entry was a valid one still within the movement budget. -/
theorem bfsExpandStep_ok (g : Game) (u : GUnit) (c : Int × Int)
    (path : List (Int × Int)) (dist : Nat) (st : BfsState) (d : Int × Int)
    (hd : d ∈ [((-1 : Int), (0 : Int)), (1, 0), (0, -1), (0, 1)])
    (he : EntryOk g.map (u.x, u.y) u.moves (c, path, dist))
    (hlt : (dist : Int) < u.moves)
    (hst : StateOk g u st) :
    StateOk g u (bfsExpandStep g c path dist st d) := by
  unfold bfsExpandStep
  by_cases hb : 0 ≤ c.1 + d.1 ∧ c.1 + d.1 < MAP_WIDTH ∧ 0 ≤ c.2 + d.2 ∧ c.2 + d.2 < MAP_HEIGHT
  · rw [if_pos hb]
    cases ht : g.map.get_tile (c.1 + d.1) (c.2 + d.2) with
    | none => exact hst
    | some tile =>
        show StateOk g u
          (if tile.terrain ≠ Terrain.water ∧ ¬ st.visited.contains (c.1 + d.1, c.2 + d.2) then
            { st with
              visited := st.visited ++ [(c.1 + d.1, c.2 + d.2)]
              queue := st.queue
                ++ [((c.1 + d.1, c.2 + d.2), path ++ [(c.1 + d.1, c.2 + d.2)], dist + 1)] }
          else st)
        by_cases hw : tile.terrain ≠ Terrain.water ∧ ¬ st.visited.contains (c.1 + d.1, c.2 + d.2)
        · rw [if_pos hw]
          obtain ⟨hq, hv, hpm, hvm, hf2, hocc⟩ := hst
          obtain ⟨hhead, hlast, hlen, hchain, hdist⟩ := he
          have hpne : path ≠ [] := by
            intro hnil
            rw [hnil] at hhead
            exact Option.noConfusion hhead
          have hstep : StepOk g.map c (c.1 + d.1, c.2 + d.2) := by
            refine ⟨?_, hb.1, hb.2.1, hb.2.2.1, hb.2.2.2, tile, ht, hw.1⟩
            have : (c.1 + d.1 - c.1).natAbs + (c.2 + d.2 - c.2).natAbs
                = d.1.natAbs + d.2.natAbs := by
              congr 1 <;> congr 1 <;> ring
            rw [this]
            rcases List.mem_cons.mp hd with rfl | hd2
            · decide
            rcases List.mem_cons.mp hd2 with rfl | hd3
            · decide
            rcases List.mem_cons.mp hd3 with rfl | hd4
            · decide
            rcases List.mem_cons.mp hd4 with rfl | hd5
            · decide
            exact absurd hd5 (List.not_mem_nil d)
          refine ⟨?_, ?_, hpm, hvm, hf2, hocc⟩
          · intro e hee
            rcases List.mem_append.mp hee with hein | heq
            · exact hq e hein
            · have heq2 : e = ((c.1 + d.1, c.2 + d.2), path ++ [(c.1 + d.1, c.2 + d.2)], dist + 1) := by
                simpa using heq
              subst heq2
              refine ⟨?_, ?_, ?_, ?_, Or.inr ⟨Nat.le_add_left 1 dist, by push_cast; omega⟩⟩
              · rw [List.head?_append_of_ne_nil path hpne]
                exact hhead
              · exact List.getLast?_concat path
              · simp [hlen]
              · rw [List.chain'_append]
                refine ⟨hchain, List.chain'_singleton _, ?_⟩
                intro x hx y hy
                rw [hlast] at hx
                have hx2 : x = c := by simpa using hx.symm
                have hy2 : y = (c.1 + d.1, c.2 + d.2) := by simpa using hy.symm
                rw [hx2, hy2]
                exact hstep
          · intro c' hc'
            rcases List.mem_append.mp hc' with hcin | hceq
            · exact hv c' hcin
            · have hceq2 : c' = (c.1 + d.1, c.2 + d.2) := by simpa using hceq
              subst hceq2
              exact fun _ => ⟨tile, ht, hw.1⟩
        · rw [if_neg hw]
          exact hst
  · rw [if_neg hb]
    exact hst

/-- Folding a state-transformer over a list preserves any predicate each
step preserves. -/
theorem foldl_preserves {α β : Type} (P : β → Prop) (f : β → α → β) (l : List α)
    (h : ∀ st a, a ∈ l → P st → P (f st a)) :
    ∀ st, P st → P (l.foldl f st) := by
  induction l with
  | nil => intro st hst; exact hst
  | cons a t ih =>
      intro st hst
      exact ih (fun st' b hb hst' => h st' b (List.mem_cons_of_mem a hb) hst')
        (f st a) (h st a (List.mem_cons_self a t) hst)

/-- The whole neighbor scan preserves the invariant. -/
theorem bfsExpand_ok (g : Game) (u : GUnit) (c : Int × Int)
    (path : List (Int × Int)) (dist : Nat) (st : BfsState)
    (he : EntryOk g.map (u.x, u.y) u.moves (c, path, dist))
    (hlt : (dist : Int) < u.moves)
    (hst : StateOk g u st) :
    StateOk g u (bfsExpand g c path dist st) :=
  foldl_preserves (StateOk g u) (bfsExpandStep g c path dist) _
    (fun st' d hd hst' => bfsExpandStep_ok g u c path dist st' d hd he hlt hst') st hst

/-- Processing one dequeued entry preserves the invariant. -/
theorem bfsVisit_ok (g : Game) (u : GUnit) (c : Int × Int)
    (path : List (Int × Int)) (dist : Nat) (st : BfsState)
    (he : EntryOk g.map (u.x, u.y) u.moves (c, path, dist))
    (hst : StateOk g u st) :
    StateOk g u (bfsVisit g u c path dist st) := by
  have key : ∀ st' : BfsState, StateOk g u st' →
      StateOk g u (if (dist : Int) ≥ u.moves then st'
        else bfsExpand g c path dist st') := by
    intro st' h1
    by_cases hge : (dist : Int) ≥ u.moves
    · rw [if_pos hge]
      exact h1
    · rw [if_neg hge]
      exact bfsExpand_ok g u c path dist st' he (lt_of_not_ge hge) h1
  have hst1 : StateOk g u
      (if 0 < dist then
        if ¬ g.units.any (fun v => v.x = c.1 ∧ v.y = c.2 ∧ v ≠ u) then
          { st with
            valid_moves := st.valid_moves ++ [c]
            path_map := st.path_map ++ [(c, path)]
            dist_map := st.dist_map ++ [(c, dist)] }
        else st
      else st) := by
    by_cases hdist : 0 < dist
    · rw [if_pos hdist]
      by_cases hocc : ¬ g.units.any (fun v => v.x = c.1 ∧ v.y = c.2 ∧ v ≠ u) = true
      · rw [if_pos hocc]
        obtain ⟨hq, hv, hpm, hvm, hf2, holdocc⟩ := hst
        obtain ⟨hhead, hlast, hlen, hchain, hdisj⟩ := he
        dsimp only at hhead hlast hlen hchain hdisj
        have hdm : 1 ≤ dist ∧ (dist : Int) ≤ u.moves := by
          rcases hdisj with h0 | h1
          · omega
          · exact h1
        refine ⟨hq, hv, ?_, ?_, ?_, ?_⟩
        · intro pr hpr
          rcases List.mem_append.mp hpr with hin | heq
          · exact hpm pr hin
          · have heq2 : pr = (c, path) := by simpa using heq
            subst heq2
            refine ⟨hhead, hlast, ?_, ?_, hchain⟩
            · dsimp only
              omega
            · dsimp only
              omega
        · simp only [hvm, List.map_append]
          rfl
        · exact List.rel_append hf2 (List.Forall₂.cons ⟨rfl, hlen⟩ List.Forall₂.nil)
        · intro c' hc'
          rcases List.mem_append.mp hc' with hin | heq
          · exact holdocc c' hin
          · have heq2 : c' = c := by simpa using heq
            subst heq2
            rintro ⟨v, hvmem, hvx, hvy, hvne⟩
            exact hocc (List.any_eq_true.mpr ⟨v, hvmem, by simpa using ⟨hvx, hvy, hvne⟩⟩)
      · rw [if_neg hocc]
        exact hst
    · rw [if_neg hdist]
      exact hst
  exact key _ hst1

/-- The BFS loop preserves the invariant for any amount of fuel. -/
theorem bfsLoop_ok (g : Game) (u : GUnit) :
    ∀ (fuel : Nat) (st : BfsState), StateOk g u st →
      StateOk g u (bfsLoop g u fuel st) := by
  intro fuel
  induction fuel with
  | zero => intro st hst; exact hst
  | succ fuel ih =>
      intro st hst
      show StateOk g u (bfsLoop g u (fuel + 1) st)
      rw [bfsLoop]
      cases hq : st.queue with
      | nil => exact hst
      | cons e rest =>
          obtain ⟨c, path, dist⟩ := e
          have hrest : StateOk g u { st with queue := rest } := by
            obtain ⟨hqe, hv, hpm, hvm, hf2, hocc⟩ := hst
            exact ⟨fun e' he' => hqe e' (by rw [hq]; exact List.mem_cons_of_mem _ he'),
              hv, hpm, hvm, hf2, hocc⟩
          have hhead : EntryOk g.map (u.x, u.y) u.moves (c, path, dist) :=
            hst.1 _ (by rw [hq]; exact List.mem_cons_self _ _)
          exact ih _ (bfsVisit_ok g u c path dist _ hhead hrest)

/-- The invariant holds for the full run of `compute_reachable`. -/
theorem computeReachableAux_ok (g : Game) (u : GUnit) :
    StateOk g u (computeReachableAux g u) := by
  apply bfsLoop_ok
  refine ⟨?_, ?_, ?_, rfl, List.Forall₂.nil, ?_⟩
  · intro e he
    have he2 : e = ((u.x, u.y), [(u.x, u.y)], 0) := by simpa using he
    subst he2
    exact ⟨rfl, rfl, rfl, List.chain'_singleton _, Or.inl rfl⟩
  · intro c hc
    have hc2 : c = (u.x, u.y) := by simpa using hc
    subst hc2
    intro hne
    exact absurd rfl hne
  · intro pr hpr
    exact absurd hpr (List.not_mem_nil pr)
  · intro c hc
    exact absurd hc (List.not_mem_nil c)

/-- `(a :: l).getLast?` is the last element, or `a` when the tail is
empty. -/
theorem getLast?_cons_eq_getLastD {α : Type} (a : α) (l : List α) :
    (a :: l).getLast? = some (l.getLastD a) := by
  induction l generalizing a with
  | nil => rfl
  | cons b t ih => rw [List.getLast?_cons_cons, ih, List.getLastD_cons]

/-- A `Forall₂` relation pairs every left member with some right member. -/
theorem forall2_mem_left {α β : Type} {R : α → β → Prop} :
    ∀ {l1 : List α} {l2 : List β}, List.Forall₂ R l1 l2 →
      ∀ a ∈ l1, ∃ b ∈ l2, R a b := by
  intro l1 l2 h
  induction h with
  | nil => intro a ha; exact absurd ha (List.not_mem_nil a)
  | @cons a' b' t1 t2 hR hF ih =>
      intro a ha
      rcases List.mem_cons.mp ha with rfl | ha2
      · exact ⟨b', List.mem_cons_self b' t2, hR⟩
      · rcases ih a ha2 with ⟨b, hb, hRb⟩
        exact ⟨b, List.mem_cons_of_mem b' hb, hRb⟩

/-- Walking `move_along_path`'s loop down a legal chain that fits the
movement budget takes every step: the step count equals the tail length,
exactly that many movement points are consumed, and the unit ends on the
last coordinate. -/
theorem moveAlongPathGo_spec (gm : GameMap) :
    ∀ (tail : List (Int × Int)) (u : GUnit) (c : Int × Int),
      u.x = c.1 → u.y = c.2 →
      List.Chain' (StepOk gm) (c :: tail) →
      (tail.length : Int) ≤ u.moves →
      (GUnit.moveAlongPathGo gm u tail).2 = tail.length
      ∧ (GUnit.moveAlongPathGo gm u tail).1.moves = u.moves - tail.length
      ∧ (GUnit.moveAlongPathGo gm u tail).1.x = (tail.getLastD c).1
      ∧ (GUnit.moveAlongPathGo gm u tail).1.y = (tail.getLastD c).2 := by
  intro tail
  induction tail with
  | nil =>
      intro u c hx hy _ _
      exact ⟨rfl, by simp [GUnit.moveAlongPathGo], by simpa [GUnit.moveAlongPathGo] using hx,
        by simpa [GUnit.moveAlongPathGo] using hy⟩
  | cons s rest ih =>
      intro u c hx hy hchain hbud
      have hstep : StepOk gm c s := (List.chain'_cons.mp hchain).1
      have hchainrest : List.Chain' (StepOk gm) (s :: rest) := (List.chain'_cons.mp hchain).2
      have hmle : 1 ≤ u.moves := by
        have : ((s :: rest).length : Int) = rest.length + 1 := by push_cast; simp
        omega
      have hcan : u.can_move s.1 s.2 gm = true := by
        unfold GUnit.can_move
        have h1 : ¬ u.moves < 1 := by omega
        have h2 : (s.1 - u.x).natAbs + (s.2 - u.y).natAbs = 1 := by
          rw [hx, hy]
          exact hstep.1
        have h3 : gm.is_tile_passable s.1 s.2 = true := by
          rcases hstep.2.2.2.2.2 with ⟨t, hter, hwat⟩
          unfold GameMap.is_tile_passable
          rw [hter]
          simp [hwat]
        simp [h1, h2, h3]
      have hmove : (u.move s.1 s.2 gm).1
          = { u with x := s.1, y := s.2, moves := u.moves - 1 } := by
        unfold GUnit.move
        rw [if_pos hcan]
      have hgo : GUnit.moveAlongPathGo gm u (s :: rest)
          = ((GUnit.moveAlongPathGo gm { u with x := s.1, y := s.2, moves := u.moves - 1 } rest).1,
             (GUnit.moveAlongPathGo gm { u with x := s.1, y := s.2, moves := u.moves - 1 } rest).2
               + 1) := by
        show (if u.can_move s.1 s.2 gm then
            ((GUnit.moveAlongPathGo gm (u.move s.1 s.2 gm).1 rest).1,
             (GUnit.moveAlongPathGo gm (u.move s.1 s.2 gm).1 rest).2 + 1)
          else (u, 0)) = _
        rw [if_pos hcan, hmove]
      have hbud2 : (rest.length : Int)
          ≤ ({ u with x := s.1, y := s.2, moves := u.moves - 1 } : GUnit).moves := by
        have : ((s :: rest).length : Int) = rest.length + 1 := by push_cast; simp
        dsimp only
        omega
      have hr := ih { u with x := s.1, y := s.2, moves := u.moves - 1 } s rfl rfl hchainrest hbud2
      rw [hgo]
      refine ⟨?_, ?_, ?_, ?_⟩
      · dsimp only
        rw [hr.1]
        rfl
      · dsimp only
        rw [hr.2.1]
        dsimp only
        have hlc : ((s :: rest).length : Int) = (rest.length : Int) + 1 := by
          push_cast [List.length_cons]
          ring
        rw [hlc]
        ring
      · dsimp only
        rw [hr.2.2.1, List.getLastD_cons]
      · dsimp only
        rw [hr.2.2.2, List.getLastD_cons]

/-- C5: every tile of the reachable set comes with a path that starts at the
unit's position, ends at the tile, whose step count equals the BFS distance
recorded for that tile and fits the movement budget; the reachable list is
exactly the domain of the path map; and `move_along_path` along that path
consumes exactly (path length − 1) movement points, leaving
moves = original − (path length − 1), which is never negative, with the unit
on the target tile. -/
theorem C5_reachable_path_cost (g : Game) (u : GUnit) (t : Int × Int)
    (p : List (Int × Int)) (hp : (t, p) ∈ (compute_reachable g u).2) :
    p.head? = some (u.x, u.y)
    ∧ p.getLast? = some t
    ∧ 2 ≤ p.length
    ∧ ((p.length : Int) - 1 ≤ u.moves)
    ∧ (∃ d, (t, d) ∈ (computeReachableAux g u).dist_map ∧ p.length = d + 1)
    ∧ (compute_reachable g u).1 = ((compute_reachable g u).2).map Prod.fst
    ∧ (u.move_along_path p g.map).2 = p.length - 1
    ∧ (u.move_along_path p g.map).1.moves = u.moves - ((p.length : Int) - 1)
    ∧ 0 ≤ (u.move_along_path p g.map).1.moves
    ∧ (u.move_along_path p g.map).1.x = t.1
    ∧ (u.move_along_path p g.map).1.y = t.2 := by
  have hok := computeReachableAux_ok g u
  obtain ⟨hq, hv, hpm, hvm, hf2, hocc⟩ := hok
  have hp2 : (t, p) ∈ (computeReachableAux g u).path_map := hp
  have hPM := hpm (t, p) hp2
  obtain ⟨hhead, hlast, hlen2, hbud, hchain⟩ := hPM
  dsimp only at hhead hlast hlen2 hbud hchain
  have hdist : ∃ d, (t, d) ∈ (computeReachableAux g u).dist_map ∧ p.length = d + 1 := by
    rcases forall2_mem_left hf2 (t, p) hp2 with ⟨dr, hdr, hr1, hr2⟩
    refine ⟨dr.2, ?_, hr2⟩
    have : dr = (t, dr.2) := by
      rw [Prod.ext_iff]
      exact ⟨hr1.symm, rfl⟩
    rw [← this]
    exact hdr
  cases hpc : p with
  | nil =>
      rw [hpc] at hhead
      exact absurd hhead (by simp)
  | cons a tailp =>
      rw [hpc] at hhead hlast hlen2 hbud hchain
      have ha : a = (u.x, u.y) := by simpa using hhead
      have hxa : u.x = a.1 := by rw [ha]
      have hya : u.y = a.2 := by rw [ha]
      have htaillen : ((tailp.length : Int)) ≤ u.moves := by
        have hlc : (((a :: tailp).length : Int)) = (tailp.length : Int) + 1 := by
          push_cast [List.length_cons]
          ring
        omega
      have hspec := moveAlongPathGo_spec g.map tailp u a hxa hya hchain htaillen
      have hmap : u.move_along_path p g.map = GUnit.moveAlongPathGo g.map u tailp := by
        rw [hpc]
        rfl
      have hlastd : tailp.getLastD a = t := by
        rw [getLast?_cons_eq_getLastD] at hlast
        simpa using hlast
      have hlc : (((a :: tailp).length : Int)) = (tailp.length : Int) + 1 := by
        push_cast [List.length_cons]
        ring
      refine ⟨hhead, hlast, hlen2, hbud, by rw [← hpc]; exact hdist, hvm, ?_, ?_, ?_, ?_, ?_⟩
      · rw [← hpc, hmap, hspec.1, hpc]
        simp
      · rw [← hpc, hmap, hspec.2.1, hpc, hlc]
        ring
      · rw [← hpc, hmap, hspec.2.1]
        omega
      · rw [← hpc, hmap, hspec.2.2.1, hlastd]
      · rw [← hpc, hmap, hspec.2.2.2, hlastd]

/-- One neighbor-scan step touches only `visited` and `queue`, and reads the
game only through its map: two runs over games with the same map, started
from states agreeing on `visited` and `queue`, stay in agreement. -/
theorem bfsExpandStep_indep (g1 g2 : Game) (hmap : g1.map = g2.map)
    (c : Int × Int) (path : List (Int × Int)) (dist : Nat)
    (st1 st2 : BfsState) (d : Int × Int)
    (hv : st1.visited = st2.visited) (hq : st1.queue = st2.queue) :
    (bfsExpandStep g1 c path dist st1 d).visited
        = (bfsExpandStep g2 c path dist st2 d).visited
    ∧ (bfsExpandStep g1 c path dist st1 d).queue
        = (bfsExpandStep g2 c path dist st2 d).queue := by
  unfold bfsExpandStep
  by_cases hb : 0 ≤ c.1 + d.1 ∧ c.1 + d.1 < MAP_WIDTH ∧ 0 ≤ c.2 + d.2 ∧ c.2 + d.2 < MAP_HEIGHT
  · rw [if_pos hb, if_pos hb, hmap]
    cases ht : g2.map.get_tile (c.1 + d.1) (c.2 + d.2) with
    | none => exact ⟨hv, hq⟩
    | some tile =>
        dsimp only
        rw [hv, hq]
        by_cases hw : tile.terrain ≠ Terrain.water
            ∧ ¬ st2.visited.contains (c.1 + d.1, c.2 + d.2)
        · rw [if_pos hw, if_pos hw]
          exact ⟨rfl, rfl⟩
        · rw [if_neg hw, if_neg hw]
          exact ⟨hv, hq⟩
  · rw [if_neg hb, if_neg hb]
    exact ⟨hv, hq⟩

/-- Pairwise `foldl` preservation of a binary relation. -/
theorem foldl_indep {α β : Type} (f1 f2 : β → α → β) (P : β → β → Prop) (l : List α)
    (h : ∀ s1 s2 a, a ∈ l → P s1 s2 → P (f1 s1 a) (f2 s2 a)) :
    ∀ s1 s2, P s1 s2 → P (l.foldl f1 s1) (l.foldl f2 s2) := by
  induction l with
  | nil => intro s1 s2 hp; exact hp
  | cons a t ih =>
      intro s1 s2 hp
      exact ih (fun s1' s2' b hb hp' => h s1' s2' b (List.mem_cons_of_mem a hb) hp')
        (f1 s1 a) (f2 s2 a) (h s1 s2 a (List.mem_cons_self a t) hp)

/-- The whole neighbor scan keeps the agreement. -/
theorem bfsExpand_indep (g1 g2 : Game) (hmap : g1.map = g2.map)
    (c : Int × Int) (path : List (Int × Int)) (dist : Nat)
    (st1 st2 : BfsState)
    (hv : st1.visited = st2.visited) (hq : st1.queue = st2.queue) :
    (bfsExpand g1 c path dist st1).visited = (bfsExpand g2 c path dist st2).visited
    ∧ (bfsExpand g1 c path dist st1).queue = (bfsExpand g2 c path dist st2).queue :=
  foldl_indep (bfsExpandStep g1 c path dist) (bfsExpandStep g2 c path dist)
    (fun s1 s2 => s1.visited = s2.visited ∧ s1.queue = s2.queue) _
    (fun s1 s2 d hd hp => bfsExpandStep_indep g1 g2 hmap c path dist s1 s2 d hp.1 hp.2)
    st1 st2 ⟨hv, hq⟩

/-- The recording stage of `bfsVisit` never touches `visited` or `queue`. -/
theorem bfsVisitStage_fields (g : Game) (u : GUnit) (c : Int × Int)
    (path : List (Int × Int)) (dist : Nat) (st : BfsState) :
    ((if 0 < dist then
        if ¬ g.units.any (fun v => v.x = c.1 ∧ v.y = c.2 ∧ v ≠ u) then
          { st with
            valid_moves := st.valid_moves ++ [c]
            path_map := st.path_map ++ [(c, path)]
            dist_map := st.dist_map ++ [(c, dist)] }
        else st
      else st) : BfsState).visited = st.visited
    ∧ ((if 0 < dist then
        if ¬ g.units.any (fun v => v.x = c.1 ∧ v.y = c.2 ∧ v ≠ u) then
          { st with
            valid_moves := st.valid_moves ++ [c]
            path_map := st.path_map ++ [(c, path)]
            dist_map := st.dist_map ++ [(c, dist)] }
        else st
      else st) : BfsState).queue = st.queue := by
  by_cases h1 : 0 < dist
  · rw [if_pos h1]
    by_cases h2 : ¬ g.units.any (fun v => v.x = c.1 ∧ v.y = c.2 ∧ v ≠ u) = true
    · rw [if_pos h2]
      exact ⟨rfl, rfl⟩
    · rw [if_neg h2]
      exact ⟨rfl, rfl⟩
  · rw [if_neg h1]
    exact ⟨rfl, rfl⟩

/-- Processing one entry keeps the agreement across games with the same
map (the occupancy test affects only the reachable-set fields). -/
theorem bfsVisit_indep (g1 g2 : Game) (u : GUnit) (hmap : g1.map = g2.map)
    (c : Int × Int) (path : List (Int × Int)) (dist : Nat)
    (st1 st2 : BfsState)
    (hv : st1.visited = st2.visited) (hq : st1.queue = st2.queue) :
    (bfsVisit g1 u c path dist st1).visited = (bfsVisit g2 u c path dist st2).visited
    ∧ (bfsVisit g1 u c path dist st1).queue = (bfsVisit g2 u c path dist st2).queue := by
  have hs1 := bfsVisitStage_fields g1 u c path dist st1
  have hs2 := bfsVisitStage_fields g2 u c path dist st2
  have hv' := hs1.1.trans (hv.trans hs2.1.symm)
  have hq' := hs1.2.trans (hq.trans hs2.2.symm)
  unfold bfsVisit
  by_cases hge : (dist : Int) ≥ u.moves
  · rw [if_pos hge, if_pos hge]
    exact ⟨hv', hq'⟩
  · rw [if_neg hge, if_neg hge]
    exact bfsExpand_indep g1 g2 hmap c path dist _ _ hv' hq'

/-- The BFS loop's `visited` and `queue` never depend on the unit list: two
runs over games sharing a map stay in agreement. -/
theorem bfsLoop_indep (g1 g2 : Game) (u : GUnit) (hmap : g1.map = g2.map) :
    ∀ (fuel : Nat) (st1 st2 : BfsState),
      st1.visited = st2.visited → st1.queue = st2.queue →
      (bfsLoop g1 u fuel st1).visited = (bfsLoop g2 u fuel st2).visited
      ∧ (bfsLoop g1 u fuel st1).queue = (bfsLoop g2 u fuel st2).queue := by
  intro fuel
  induction fuel with
  | zero => intro st1 st2 hv hq; exact ⟨hv, hq⟩
  | succ fuel ih =>
      intro st1 st2 hv hq
      rw [bfsLoop, bfsLoop]
      cases hq1 : st1.queue with
      | nil =>
          rw [← hq, hq1]
          dsimp only
          exact ⟨hv, by rw [← hq1]; exact hq⟩
      | cons e rest =>
          obtain ⟨c, path, dist⟩ := e
          rw [← hq, hq1]
          dsimp only
          have hpair := bfsVisit_indep g1 g2 u hmap c path dist
            { st1 with queue := rest } { st2 with queue := rest } hv rfl
          exact ih _ _ hpair.1 hpair.2

/-- A full-size all-grassland map matching the configured dimensions. -/
def openMap20 : GameMap :=
  { width := 20, height := 20
    tiles := (List.range 20).map (fun y => (List.range 20).map (fun x =>
      { x := (x : Int), y := (y : Int), terrain := Terrain.grassland, claim := none
        unit := none })) }

/-- The moving unit of the concrete reachability scenario: a warrior at
(2,2) with 2 movement points left. -/
def moverUnit : GUnit := { mkWarrior 1 ("P1") 2 2 with moves := 2 }

/-- Another player's warrior occupying (2,3). -/
def blockerUnit : GUnit := mkWarrior 2 ("P2") 2 3

/-- The concrete reachability scenario: open map, mover at (2,2), blocker at
(2,3). -/
def occGame : Game :=
  { map := openMap20, units := [moverUnit, blockerUnit], players := []
    current_player := none, turn := 1, turn_finished := [] }

set_option maxRecDepth 40000

/-- C6: no occupied tile ever enters the reachable set; every enqueued tile
is non-water (the start tile being non-water itself); enqueuing — hence
traversability — is entirely independent of the unit list, so occupied
tiles are traversed freely and the mover's own occupancy of the start tile
blocks nothing; and concretely, the tile (2,3) occupied by another unit is
excluded from the reachable set while appearing as the interior step of the
returned path to (2,4). -/
theorem C6_occupied_traversable_not_stoppable (g : Game) (u : GUnit)
    (hstart : ∃ t0, g.map.get_tile u.x u.y = some t0 ∧ t0.terrain ≠ Terrain.water) :
    (∀ c ∈ (compute_reachable g u).1, ¬ ∃ v ∈ g.units, v.x = c.1 ∧ v.y = c.2 ∧ v ≠ u)
    ∧ (∀ c ∈ (computeReachableAux g u).visited,
        ∃ t, g.map.get_tile c.1 c.2 = some t ∧ t.terrain ≠ Terrain.water)
    ∧ (∀ units' : List GUnit,
        (computeReachableAux { g with units := units' } u).visited
          = (computeReachableAux g u).visited)
    ∧ (((2 : Int), (3 : Int)) ∉ (compute_reachable occGame moverUnit).1
       ∧ (((2 : Int), (4 : Int)),
           [((2 : Int), (2 : Int)), ((2 : Int), (3 : Int)), ((2 : Int), (4 : Int))])
            ∈ (compute_reachable occGame moverUnit).2
       ∧ blockerUnit ∈ occGame.units ∧ blockerUnit.x = 2 ∧ blockerUnit.y = 3
       ∧ blockerUnit ≠ moverUnit) := by
  have hok := computeReachableAux_ok g u
  refine ⟨hok.2.2.2.2.2, ?_, ?_, by decide, by decide, by decide, by decide, by decide,
    by decide⟩
  · intro c hc
    by_cases hcs : c = (u.x, u.y)
    · rw [hcs]
      exact hstart
    · exact hok.2.1 c hc hcs
  · intro units'
    exact (bfsLoop_indep { g with units := units' } g u rfl _ _ _ rfl rfl).1

/-- A witness for the start-tile hypothesis of the concrete scenario. -/
theorem C6_occupied_traversable_not_stoppable_witness :
    (∀ c ∈ (compute_reachable occGame moverUnit).1,
        ¬ ∃ v ∈ occGame.units, v.x = c.1 ∧ v.y = c.2 ∧ v ≠ moverUnit)
    ∧ (∀ c ∈ (computeReachableAux occGame moverUnit).visited,
        ∃ t, occGame.map.get_tile c.1 c.2 = some t ∧ t.terrain ≠ Terrain.water)
    ∧ (∀ units' : List GUnit,
        (computeReachableAux { occGame with units := units' } moverUnit).visited
          = (computeReachableAux occGame moverUnit).visited)
    ∧ (((2 : Int), (3 : Int)) ∉ (compute_reachable occGame moverUnit).1
       ∧ (((2 : Int), (4 : Int)),
           [((2 : Int), (2 : Int)), ((2 : Int), (3 : Int)), ((2 : Int), (4 : Int))])
            ∈ (compute_reachable occGame moverUnit).2
       ∧ blockerUnit ∈ occGame.units ∧ blockerUnit.x = 2 ∧ blockerUnit.y = 3
       ∧ blockerUnit ≠ moverUnit) :=
  C6_occupied_traversable_not_stoppable occGame moverUnit
    ⟨{ x := 2, y := 2, terrain := Terrain.grassland, claim := none, unit := none },
      by decide, by decide⟩

/-- C5 witness: the path-cost theorem applied to the returned path from
(2,2) to (2,4) in the concrete scenario. -/
theorem C5_reachable_path_cost_witness :
    [((2 : Int), (2 : Int)), ((2 : Int), (3 : Int)), ((2 : Int), (4 : Int))].head?
        = some (moverUnit.x, moverUnit.y)
    ∧ [((2 : Int), (2 : Int)), ((2 : Int), (3 : Int)), ((2 : Int), (4 : Int))].getLast?
        = some ((2 : Int), (4 : Int))
    ∧ 2 ≤ [((2 : Int), (2 : Int)), ((2 : Int), (3 : Int)), ((2 : Int), (4 : Int))].length
    ∧ (([((2 : Int), (2 : Int)), ((2 : Int), (3 : Int)), ((2 : Int), (4 : Int))].length : Int)
        - 1 ≤ moverUnit.moves)
    ∧ (∃ d, (((2 : Int), (4 : Int)), d) ∈ (computeReachableAux occGame moverUnit).dist_map
        ∧ [((2 : Int), (2 : Int)), ((2 : Int), (3 : Int)), ((2 : Int), (4 : Int))].length = d + 1)
    ∧ (compute_reachable occGame moverUnit).1
        = ((compute_reachable occGame moverUnit).2).map Prod.fst
    ∧ (moverUnit.move_along_path
        [((2 : Int), (2 : Int)), ((2 : Int), (3 : Int)), ((2 : Int), (4 : Int))] occGame.map).2
        = [((2 : Int), (2 : Int)), ((2 : Int), (3 : Int)), ((2 : Int), (4 : Int))].length - 1
    ∧ (moverUnit.move_along_path
        [((2 : Int), (2 : Int)), ((2 : Int), (3 : Int)), ((2 : Int), (4 : Int))] occGame.map).1.moves
        = moverUnit.moves
          - (([((2 : Int), (2 : Int)), ((2 : Int), (3 : Int)), ((2 : Int), (4 : Int))].length : Int) - 1)
    ∧ 0 ≤ (moverUnit.move_along_path
        [((2 : Int), (2 : Int)), ((2 : Int), (3 : Int)), ((2 : Int), (4 : Int))] occGame.map).1.moves
    ∧ (moverUnit.move_along_path
        [((2 : Int), (2 : Int)), ((2 : Int), (3 : Int)), ((2 : Int), (4 : Int))] occGame.map).1.x
        = (2 : Int)
    ∧ (moverUnit.move_along_path
        [((2 : Int), (2 : Int)), ((2 : Int), (3 : Int)), ((2 : Int), (4 : Int))] occGame.map).1.y
        = (4 : Int) :=
  C5_reachable_path_cost occGame moverUnit ((2 : Int), (4 : Int))
    [((2 : Int), (2 : Int)), ((2 : Int), (3 : Int)), ((2 : Int), (4 : Int))] (by decide)

/-- 8-directional adjacency exactly as `City.is_adjacent_to_worked` tests
it: Chebyshev distance at most 1 and not the same coordinate. -/
def adjacentTiles (w t : Int × Int) : Prop :=
  (w.1 - t.1).natAbs ≤ 1 ∧ (w.2 - t.2).natAbs ≤ 1 ∧ (w.1 ≠ t.1 ∨ w.2 ≠ t.2)

/-- The shape every worked-tile list built by the city engine has: empty, or
the center followed by tiles each 8-adjacent to an earlier one. -/
inductive Contig (center : Int × Int) : List (Int × Int) → Prop
  | nil : Contig center []
  | base : Contig center [center]
  | snoc (ws : List (Int × Int)) (w : Int × Int) :
      Contig center ws → (∃ w' ∈ ws, adjacentTiles w' w) → Contig center (ws ++ [w])

/-- Dropping the most recently added tile preserves the shape. -/
theorem Contig.dropLast {center : Int × Int} {ws : List (Int × Int)}
    (h : Contig center ws) : Contig center ws.dropLast := by
  cases h with
  | nil => exact Contig.nil
  | base => exact Contig.nil
  | snoc ws w hc _ =>
      rw [List.dropLast_concat]
      exact hc

/-- The claimed invariant follows from the shape: every worked tile is the
center or 8-adjacent to another worked tile of the same list. -/
theorem Contig.mem_spec {center : Int × Int} {ws : List (Int × Int)}
    (h : Contig center ws) :
    ∀ t ∈ ws, t = center ∨ ∃ w' ∈ ws, w' ≠ t
      ∧ (w'.1 - t.1).natAbs ≤ 1 ∧ (w'.2 - t.2).natAbs ≤ 1 := by
  induction h with
  | nil => intro t ht; exact absurd ht (List.not_mem_nil t)
  | base =>
      intro t ht
      exact Or.inl (by simpa using ht)
  | snoc ws w hc hadj ih =>
      intro t ht
      rcases List.mem_append.mp ht with hin | heq
      · rcases ih t hin with h1 | ⟨w', hw', hne, h1, h2⟩
        · exact Or.inl h1
        · exact Or.inr ⟨w', List.mem_append_left _ hw', hne, h1, h2⟩
      · have ht2 : t = w := by simpa using heq
        subst ht2
        rcases hadj with ⟨w', hw', ha1, ha2, ha3⟩
        refine Or.inr ⟨w', List.mem_append_left _ hw', ?_, ha1, ha2⟩
        intro hcontr
        rcases ha3 with h | h
        · exact h (by rw [hcontr])
        · exact h (by rw [hcontr])

/-- Decoding the `is_adjacent_to_worked` test. -/
theorem is_adjacent_to_worked_spec (c : City) (tx ty : Int)
    (h : c.is_adjacent_to_worked tx ty = true) :
    ∃ w ∈ c.worked_tiles, adjacentTiles w (tx, ty) := by
  unfold City.is_adjacent_to_worked at h
  rcases List.any_eq_true.mp h with ⟨w, hw, hprop⟩
  refine ⟨w, hw, ?_⟩
  have := of_decide_eq_true hprop
  exact this

/-- Decoding a candidate of `get_potential_worked_tiles`: it is adjacent to
a currently worked tile, not currently worked, and not worked by any city of
`allCities` with a different id. -/
theorem mem_potential_spec (self : City) (gm : GameMap) (allCities : List City)
    (radius : Int) (t : Int × Int)
    (h : t ∈ self.get_potential_worked_tiles gm allCities radius) :
    (∃ w ∈ self.worked_tiles, adjacentTiles w t)
    ∧ t ∉ self.worked_tiles
    ∧ ¬ ∃ c ∈ allCities, c.city_id ≠ self.city_id ∧ t ∈ c.worked_tiles := by
  unfold City.get_potential_worked_tiles at h
  rcases List.mem_flatMap.mp h with ⟨dx, hdx, hrow⟩
  rcases List.mem_filterMap.mp hrow with ⟨dy, hdy, heq⟩
  by_cases h1 : (self.x + dx, self.y + dy) ∈ self.worked_tiles
  · rw [if_pos h1] at heq
    exact absurd heq (by simp)
  rw [if_neg h1] at heq
  cases ht : gm.get_tile (self.x + dx) (self.y + dy) with
  | none =>
      rw [ht] at heq
      exact absurd heq (by simp)
  | some tile =>
      rw [ht] at heq
      dsimp only at heq
      by_cases h2 : tile.terrain = Terrain.water ∨ tile.terrain = Terrain.mountain
      · rw [if_pos h2] at heq
        exact absurd heq (by simp)
      rw [if_neg h2] at heq
      by_cases h3 : allCities.any (fun c =>
          c.city_id ≠ self.city_id ∧ (self.x + dx, self.y + dy) ∈ c.worked_tiles) = true
      · rw [if_pos h3] at heq
        exact absurd heq (by simp)
      rw [if_neg h3] at heq
      by_cases h4 : self.is_adjacent_to_worked (self.x + dx) (self.y + dy) = true
      · rw [if_pos h4] at heq
        have ht2 : (self.x + dx, self.y + dy) = t := by simpa using heq
        subst ht2
        refine ⟨is_adjacent_to_worked_spec self _ _ h4, h1, ?_⟩
        rintro ⟨c, hc, hne, hmem⟩
        exact h3 (List.any_eq_true.mpr ⟨c, hc, by simpa using ⟨hne, hmem⟩⟩)
      · rw [if_neg h4] at heq
        exact absurd heq (by simp)

/-- Expansion keeps the city's identity, center and population, keeps the
worked list contiguous, and adds only tiles no differently-identified city
of `allCities` works. -/
theorem expandLoop_spec (allCities : List City) (radius : Int) :
    ∀ (fuel : Nat) (gm : GameMap) (self : City),
      Contig (self.x, self.y) self.worked_tiles →
      (expandLoop gm allCities radius fuel self).1.city_id = self.city_id
      ∧ (expandLoop gm allCities radius fuel self).1.x = self.x
      ∧ (expandLoop gm allCities radius fuel self).1.y = self.y
      ∧ (expandLoop gm allCities radius fuel self).1.population = self.population
      ∧ Contig (self.x, self.y) (expandLoop gm allCities radius fuel self).1.worked_tiles
      ∧ (∀ t ∈ (expandLoop gm allCities radius fuel self).1.worked_tiles,
          t ∈ self.worked_tiles
          ∨ ¬ ∃ c ∈ allCities, c.city_id ≠ self.city_id ∧ t ∈ c.worked_tiles) := by
  intro fuel
  induction fuel with
  | zero =>
      intro gm self hc
      exact ⟨rfl, rfl, rfl, rfl, hc, fun t ht => Or.inl ht⟩
  | succ fuel ih =>
      intro gm self hc
      show _ ∧ _
      rw [expandLoop]
      by_cases hlen : (self.worked_tiles.length : Int) < self.population
      · rw [if_pos hlen]
        dsimp only
        cases hhd : (List.mergeSort (self.get_potential_worked_tiles gm allCities radius)
            (fun a b =>
              decide (self.manhattanToCenter a ≤ self.manhattanToCenter b))).head? with
        | none =>
            dsimp only
            exact ⟨rfl, rfl, rfl, rfl, hc, fun t ht => Or.inl ht⟩
        | some chosen =>
            have hchosen : chosen ∈ self.get_potential_worked_tiles gm allCities radius := by
              have hmem : chosen ∈ List.mergeSort
                  (self.get_potential_worked_tiles gm allCities radius)
                  (fun a b =>
                    decide (self.manhattanToCenter a ≤ self.manhattanToCenter b)) := by
                cases hms : List.mergeSort
                    (self.get_potential_worked_tiles gm allCities radius)
                    (fun a b =>
                      decide (self.manhattanToCenter a ≤ self.manhattanToCenter b)) with
                | nil =>
                    rw [hms] at hhd
                    exact absurd hhd (by simp)
                | cons a rest =>
                    rw [hms] at hhd
                    have ha : a = chosen := by simpa using hhd
                    rw [← ha]
                    exact List.mem_cons_self a rest
              exact (List.mergeSort_perm _ _).mem_iff.mp hmem
            have hdecode := mem_potential_spec self gm allCities radius chosen hchosen
            have hcontig' : Contig (self.x, self.y)
                (self.worked_tiles ++ [chosen]) :=
              Contig.snoc _ _ hc hdecode.1
            have hih := ih (gm.modifyTile chosen.1 chosen.2
                (fun t => (t.claimTile self.city_id self.owner_id).1))
              { self with worked_tiles := self.worked_tiles ++ [chosen] } hcontig'
            dsimp only
            refine ⟨hih.1, hih.2.1, hih.2.2.1, hih.2.2.2.1, hih.2.2.2.2.1, ?_⟩
            intro t ht
            rcases hih.2.2.2.2.2 t ht with hin | hnot
            · rcases List.mem_append.mp hin with h1 | h2
              · exact Or.inl h1
              · have ht2 : t = chosen := by simpa using h2
                subst ht2
                exact Or.inr hdecode.2.2
            · exact Or.inr hnot
      · rw [if_neg hlen]
        exact ⟨rfl, rfl, rfl, rfl, hc, fun t ht => Or.inl ht⟩

/-- Contraction keeps identity, center and population, preserves the shape,
and only removes tiles. -/
theorem contractLoop_spec :
    ∀ (fuel : Nat) (self : City) (gm : GameMap),
      Contig (self.x, self.y) self.worked_tiles →
      (contractLoop fuel self gm).1.city_id = self.city_id
      ∧ (contractLoop fuel self gm).1.x = self.x
      ∧ (contractLoop fuel self gm).1.y = self.y
      ∧ (contractLoop fuel self gm).1.population = self.population
      ∧ Contig (self.x, self.y) (contractLoop fuel self gm).1.worked_tiles
      ∧ (∀ t ∈ (contractLoop fuel self gm).1.worked_tiles, t ∈ self.worked_tiles) := by
  intro fuel
  induction fuel with
  | zero =>
      intro self gm hc
      exact ⟨rfl, rfl, rfl, rfl, hc, fun t ht => ht⟩
  | succ fuel ih =>
      intro self gm hc
      show _ ∧ _
      rw [contractLoop]
      by_cases hlen : (self.worked_tiles.length : Int) > self.population
      · rw [if_pos hlen]
        dsimp only
        cases hlast : self.worked_tiles.getLast? with
        | none =>
            dsimp only
            exact ⟨rfl, rfl, rfl, rfl, hc, fun t ht => ht⟩
        | some removed =>
            have hcontig' : Contig (self.x, self.y) self.worked_tiles.dropLast :=
              Contig.dropLast hc
            have hih := ih { self with worked_tiles := self.worked_tiles.dropLast }
              (if (gm.get_tile removed.1 removed.2).any (fun t =>
                  t.claim.map TileClaim.city_id = some self.city_id) then
                gm.modifyTile removed.1 removed.2 (fun t => t.releaseBy self.city_id)
              else gm) hcontig'
            dsimp only
            refine ⟨hih.1, hih.2.1, hih.2.2.1, hih.2.2.2.1, hih.2.2.2.2.1, ?_⟩
            intro t ht
            exact List.dropLast_subset _ (hih.2.2.2.2.2 t ht)
      · rw [if_neg hlen]
        exact ⟨rfl, rfl, rfl, rfl, hc, fun t ht => ht⟩

/-- `update_worked_tiles` (expand then contract) keeps the city's identity,
center and population, keeps the worked list contiguous, and every worked
tile afterwards was already worked or is worked by no differently-identified
city of `allCities`. -/
theorem update_worked_tiles_spec (allCities : List City) (self : City) (gm : GameMap)
    (hc : Contig (self.x, self.y) self.worked_tiles) :
    (self.update_worked_tiles gm allCities 1).1.city_id = self.city_id
    ∧ (self.update_worked_tiles gm allCities 1).1.x = self.x
    ∧ (self.update_worked_tiles gm allCities 1).1.y = self.y
    ∧ (self.update_worked_tiles gm allCities 1).1.population = self.population
    ∧ Contig (self.x, self.y) (self.update_worked_tiles gm allCities 1).1.worked_tiles
    ∧ (∀ t ∈ (self.update_worked_tiles gm allCities 1).1.worked_tiles,
        t ∈ self.worked_tiles
        ∨ ¬ ∃ c ∈ allCities, c.city_id ≠ self.city_id ∧ t ∈ c.worked_tiles) := by
  have hE := expandLoop_spec allCities 1
    (self.population - (self.worked_tiles.length : Int)).toNat gm self hc
  have hCc : Contig ((self.expand_worked_tiles gm allCities 1).1.x,
      (self.expand_worked_tiles gm allCities 1).1.y)
      (self.expand_worked_tiles gm allCities 1).1.worked_tiles := by
    rw [City.expand_worked_tiles, hE.2.1, hE.2.2.1]
    exact hE.2.2.2.2.1
  have hC := contractLoop_spec (self.expand_worked_tiles gm allCities 1).1.worked_tiles.length
    (self.expand_worked_tiles gm allCities 1).1 (self.expand_worked_tiles gm allCities 1).2 hCc
  have hupd : self.update_worked_tiles gm allCities 1
      = (self.expand_worked_tiles gm allCities 1).1.contract_worked_tiles
          (self.expand_worked_tiles gm allCities 1).2 := rfl
  have hEid : (self.expand_worked_tiles gm allCities 1).1.city_id = self.city_id := hE.1
  have hEx : (self.expand_worked_tiles gm allCities 1).1.x = self.x := hE.2.1
  have hEy : (self.expand_worked_tiles gm allCities 1).1.y = self.y := hE.2.2.1
  have hEp : (self.expand_worked_tiles gm allCities 1).1.population = self.population :=
    hE.2.2.2.1
  rw [hupd, City.contract_worked_tiles]
  refine ⟨hC.1.trans hEid, hC.2.1.trans hEx, hC.2.2.1.trans hEy,
    hC.2.2.2.1.trans hEp, ?_, ?_⟩
  · rw [← hEx, ← hEy]
    exact hC.2.2.2.2.1
  · intro t ht
    have ht2 := hC.2.2.2.2.2 t ht
    rcases hE.2.2.2.2.2 t ht2 with h1 | h2
    · exact Or.inl h1
    · exact Or.inr h2

/-- The shared invariant claim C4 asserts, phrased over list indices: every
city's worked list has the contiguous shape, no tile is worked by two
different cities, and city ids are pairwise distinct (the identity the
exclusivity check keys on). -/
def CityInv (cs : List City) : Prop :=
  (∀ i (hi : i < cs.length),
      Contig ((cs.get ⟨i, hi⟩).x, (cs.get ⟨i, hi⟩).y) (cs.get ⟨i, hi⟩).worked_tiles)
  ∧ (∀ i j (hi : i < cs.length) (hj : j < cs.length), i ≠ j →
      ∀ t ∈ (cs.get ⟨i, hi⟩).worked_tiles, t ∉ (cs.get ⟨j, hj⟩).worked_tiles)
  ∧ (∀ i j (hi : i < cs.length) (hj : j < cs.length), i ≠ j →
      (cs.get ⟨i, hi⟩).city_id ≠ (cs.get ⟨j, hj⟩).city_id)

/-- `get` after `set` at the written index. -/
theorem get_set_self_city (l : List City) (i : Nat) (a : City)
    (h : i < (l.set i a).length) : (l.set i a).get ⟨i, h⟩ = a := by
  simp [List.get_eq_getElem]

/-- `get` after `set` at another index. -/
theorem get_set_ne_city (l : List City) (i j : Nat) (a : City) (hne : i ≠ j)
    (h : j < (l.set i a).length) (h2 : j < l.length) :
    (l.set i a).get ⟨j, h⟩ = l.get ⟨j, h2⟩ := by
  simp [List.get_eq_getElem, List.getElem_set_ne hne]

/-- Replacing city `i` with a city of the same identity and center, whose
worked list is contiguous and disjoint from every other city's, preserves
the invariant. -/
theorem cityInv_set (cs : List City) (i : Nat) (hi : i < cs.length) (c' : City)
    (h : CityInv cs)
    (hid : c'.city_id = (cs.get ⟨i, hi⟩).city_id)
    (hx : c'.x = (cs.get ⟨i, hi⟩).x) (hy : c'.y = (cs.get ⟨i, hi⟩).y)
    (hcontig : Contig (c'.x, c'.y) c'.worked_tiles)
    (hdisj : ∀ j (hj : j < cs.length), j ≠ i →
      ∀ t ∈ c'.worked_tiles, t ∉ (cs.get ⟨j, hj⟩).worked_tiles) :
    CityInv (cs.set i c') := by
  obtain ⟨h1, h2, h3⟩ := h
  refine ⟨?_, ?_, ?_⟩
  · intro k hk
    have hk2 : k < cs.length := by simpa using hk
    by_cases hki : k = i
    · subst hki
      rw [get_set_self_city cs k c' hk]
      exact hcontig
    · rw [get_set_ne_city cs i k c' (fun he => hki he.symm) hk hk2]
      exact h1 k hk2
  · intro k l hk hl hkl t htk
    have hk2 : k < cs.length := by simpa using hk
    have hl2 : l < cs.length := by simpa using hl
    by_cases hki : k = i
    · subst hki
      rw [get_set_self_city cs k c' hk] at htk
      have hli : l ≠ k := fun he => hkl he.symm
      rw [get_set_ne_city cs k l c' (fun he => hli he.symm) hl hl2]
      exact hdisj l hl2 hli t htk
    · rw [get_set_ne_city cs i k c' (fun he => hki he.symm) hk hk2] at htk
      by_cases hli : l = i
      · subst hli
        rw [get_set_self_city cs l c' hl]
        intro htl
        exact hdisj k hk2 hki t htl htk
      · rw [get_set_ne_city cs i l c' (fun he => hli he.symm) hl hl2]
        exact h2 k l hk2 hl2 hkl t htk
  · intro k l hk hl hkl
    have hk2 : k < cs.length := by simpa using hk
    have hl2 : l < cs.length := by simpa using hl
    by_cases hki : k = i
    · subst hki
      rw [get_set_self_city cs k c' hk]
      have hli : l ≠ k := fun he => hkl he.symm
      rw [get_set_ne_city cs k l c' (fun he => hli he.symm) hl hl2, hid]
      exact h3 k l hk2 hl2 hkl
    · rw [get_set_ne_city cs i k c' (fun he => hki he.symm) hk hk2]
      by_cases hli : l = i
      · subst hli
        rw [get_set_self_city cs l c' hl, hid]
        exact h3 k l hk2 hl2 hkl
      · rw [get_set_ne_city cs i l c' (fun he => hli he.symm) hl hl2]
        exact h3 k l hk2 hl2 hkl

/-- Every single event — an external population change or an
`update_worked_tiles` call with the shared map and full city list —
preserves the invariant. -/
theorem applyCityOp_inv (s : List City × GameMap) (op : CityOp)
    (h : CityInv s.1) : CityInv (applyCityOp s op).1 := by
  cases op with
  | setPop i p =>
      show CityInv (match s.1.get? i with
        | none => s
        | some c => (s.1.set i { c with population := p }, s.2)).1
      cases hget : s.1.get? i with
      | none => exact h
      | some c =>
          dsimp only
          rcases List.get?_eq_some.mp hget with ⟨hi, hc⟩
          apply cityInv_set s.1 i hi { c with population := p } h
          · rw [hc]
          · rw [hc]
          · rw [hc]
          · have hcon := h.1 i hi
            rw [hc] at hcon
            exact hcon
          · intro j hj hne t ht
            have hd := h.2.1 i j hi hj (fun he => hne he.symm)
            rw [hc] at hd
            exact hd t ht
  | update i =>
      show CityInv (match s.1.get? i with
        | none => s
        | some self =>
            (s.1.set i (self.update_worked_tiles s.2 s.1 1).1,
             (self.update_worked_tiles s.2 s.1 1).2)).1
      cases hget : s.1.get? i with
      | none => exact h
      | some self =>
          dsimp only
          rcases List.get?_eq_some.mp hget with ⟨hi, hc⟩
          have hcon := h.1 i hi
          rw [hc] at hcon
          have huspec := update_worked_tiles_spec s.1 self s.2 hcon
          apply cityInv_set s.1 i hi (self.update_worked_tiles s.2 s.1 1).1 h
          · rw [hc]
            exact huspec.1
          · rw [hc]
            exact huspec.2.1
          · rw [hc]
            exact huspec.2.2.1
          · rw [huspec.2.1, huspec.2.2.1]
            exact huspec.2.2.2.2.1
          · intro j hj hne t ht
            rcases huspec.2.2.2.2.2 t ht with h1 | h2
            · have hd := h.2.1 i j hi hj (fun he => hne he.symm)
              rw [hc] at hd
              exact hd t h1
            · intro htj
              refine h2 ⟨s.1.get ⟨j, hj⟩, List.get_mem s.1 j hj, ?_, htj⟩
              have hd := h.2.2 j i hj hi hne
              rw [hc] at hd
              exact hd

/-- Any sequence of events preserves the invariant. -/
theorem runCityOps_inv (s : List City × GameMap) (ops : List CityOp)
    (h : CityInv s.1) : CityInv (runCityOps s ops).1 :=
  foldl_preserves (fun st => CityInv st.1) applyCityOp ops
    (fun st op _ hp => applyCityOp_inv st op hp) s h

/-- C4: starting from freshly founded cities (each working exactly its
center) with pairwise distinct ids and centers, after any sequence of
population changes and `update_worked_tiles` calls over the shared map,
every worked tile of each city is that city's center or 8-directionally
adjacent to another worked tile of the same city, and no coordinate is in
the worked lists of two different cities. -/
theorem C4_worked_tiles_invariant (cities0 : List City) (gm0 : GameMap)
    (ops : List CityOp)
    (hfresh : ∀ i (hi : i < cities0.length),
        (cities0.get ⟨i, hi⟩).worked_tiles
          = [((cities0.get ⟨i, hi⟩).x, (cities0.get ⟨i, hi⟩).y)])
    (hids : ∀ i j (hi : i < cities0.length) (hj : j < cities0.length), i ≠ j →
        (cities0.get ⟨i, hi⟩).city_id ≠ (cities0.get ⟨j, hj⟩).city_id)
    (hcenters : ∀ i j (hi : i < cities0.length) (hj : j < cities0.length), i ≠ j →
        ((cities0.get ⟨i, hi⟩).x, (cities0.get ⟨i, hi⟩).y)
          ≠ ((cities0.get ⟨j, hj⟩).x, (cities0.get ⟨j, hj⟩).y)) :
    (∀ c ∈ (runCityOps (cities0, gm0) ops).1, ∀ t ∈ c.worked_tiles,
        t = (c.x, c.y)
        ∨ ∃ w ∈ c.worked_tiles, w ≠ t
            ∧ (w.1 - t.1).natAbs ≤ 1 ∧ (w.2 - t.2).natAbs ≤ 1)
    ∧ (∀ i j (hi : i < (runCityOps (cities0, gm0) ops).1.length)
          (hj : j < (runCityOps (cities0, gm0) ops).1.length), i ≠ j →
        ∀ t ∈ ((runCityOps (cities0, gm0) ops).1.get ⟨i, hi⟩).worked_tiles,
          t ∉ ((runCityOps (cities0, gm0) ops).1.get ⟨j, hj⟩).worked_tiles) := by
  have hinit : CityInv cities0 := by
    refine ⟨?_, ?_, hids⟩
    · intro i hi
      rw [hfresh i hi]
      exact Contig.base
    · intro i j hi hj hne t ht
      rw [hfresh i hi] at ht
      have ht2 : t = ((cities0.get ⟨i, hi⟩).x, (cities0.get ⟨i, hi⟩).y) := by
        simpa using ht
      rw [hfresh j hj]
      simp only [List.mem_singleton]
      rw [ht2]
      exact hcenters i j hi hj hne
  have hfin := runCityOps_inv (cities0, gm0) ops hinit
  constructor
  · intro c hcmem t ht
    rcases List.mem_iff_get.mp hcmem with ⟨⟨i, hi⟩, hceq⟩
    have hcon := hfin.1 i hi
    rw [hceq] at hcon
    exact Contig.mem_spec hcon t ht
  · exact hfin.2.1

/-- Two freshly founded cities on the open map. -/
def cityAlpha : City := mkCity ("cityA") ("P1") ("Alpha") 1 1 3

/-- The second city, two tiles away. -/
def cityBeta : City := mkCity ("cityB") ("P2") ("Beta") 4 1 2

/-- A concrete event sequence: both cities update, a population change, and
another update. -/
def cityOpsExample : List CityOp :=
  [CityOp.update 0, CityOp.update 1, CityOp.setPop 0 5, CityOp.update 0]

/-- C4 witness: the invariant theorem applied to the two concrete cities and
the concrete event sequence. -/
theorem C4_worked_tiles_invariant_witness :
    (∀ c ∈ (runCityOps ([cityAlpha, cityBeta], openMap20) cityOpsExample).1,
        ∀ t ∈ c.worked_tiles,
        t = (c.x, c.y)
        ∨ ∃ w ∈ c.worked_tiles, w ≠ t
            ∧ (w.1 - t.1).natAbs ≤ 1 ∧ (w.2 - t.2).natAbs ≤ 1)
    ∧ (∀ i j (hi : i < (runCityOps ([cityAlpha, cityBeta], openMap20) cityOpsExample).1.length)
          (hj : j < (runCityOps ([cityAlpha, cityBeta], openMap20) cityOpsExample).1.length),
        i ≠ j →
        ∀ t ∈ ((runCityOps ([cityAlpha, cityBeta], openMap20) cityOpsExample).1.get
            ⟨i, hi⟩).worked_tiles,
          t ∉ ((runCityOps ([cityAlpha, cityBeta], openMap20) cityOpsExample).1.get
            ⟨j, hj⟩).worked_tiles) :=
  C4_worked_tiles_invariant [cityAlpha, cityBeta] openMap20 cityOpsExample
    (by decide)
    (by
      intro i j hi hj hne
      have hi2 : i < 2 := by simpa using hi
      have hj2 : j < 2 := by simpa using hj
      interval_cases i <;> interval_cases j <;>
        first
        | exact absurd rfl hne
        | (simp [cityAlpha, cityBeta, mkCity, Prod.ext_iff]
           try decide))
    (by
      intro i j hi hj hne
      have hi2 : i < 2 := by simpa using hi
      have hj2 : j < 2 := by simpa using hj
      interval_cases i <;> interval_cases j <;>
        first
        | exact absurd rfl hne
        | (simp [cityAlpha, cityBeta, mkCity, Prod.ext_iff]
           try decide))
